import Mathlib

/-!
# KHARMA: per-zone implicit residual / numerical Jacobian, and torus field seeding

Shallow embedding of `kharma/implicit/implicit.hpp` (`calc_residual`,
`calc_jacobian`) and `kharma/prob/seed_B.cpp` (`SeedBField`).

* `Real`/`double` values are exact rationals (`ℚ`).
* Kokkos views have reference semantics: a view argument is a handle
  (`Local`) into a memory `Mem`, so that writes through one argument are
  visible through every alias of it.
* `for (int ip = 0; ip < n; ++ip)` loops are `forLoop`; a `par_for` runs its
  body once per index of its inclusive ranges.
* Routines whose bodies are in other headers (`Flux::p_to_u`, the `EMHD` sources,
  the math library) are parameters.
* `Implicit::Step` is only declared in `implicit.hpp`; the per-zone Newton solve
  is the state machine of the specification (`NewtonDriver`).
-/

namespace Implicit

/-- The contents of one 1-D view, addressed by a C `int`. -/
abbrev Vec := Int → ℚ

/-- A handle naming a 1-D view (`Local` template parameter of the source). -/
abbrev Local := Nat

/-- The contents of all 1-D views that are live during one zone's solve. -/
@[ext] structure Mem where
  read : Local → Vec

/-- The store `v(ip) = x`. -/
def Mem.set (m : Mem) (v : Local) (ip : Int) (x : ℚ) : Mem :=
  ⟨fun w iq => if w = v ∧ iq = ip then x else m.read w iq⟩

/-- Overwrite of the whole view `v` by the contents `c` (output argument of a callee). -/
def Mem.fill (m : Mem) (v : Local) (c : Vec) : Mem :=
  ⟨fun w => if w = v then c else m.read w⟩

/-- The loop `for (int ip = 0; ip < n; ++ip) body`, as a state transformer. -/
def forLoop {σ : Type} : Nat → (Int → σ → σ) → σ → σ
  | 0, _, s => s
  | k + 1, body, s => body (k : Int) (forLoop k body s)

/-- The macro `FLOOP`: `for(int ip=0; ip < nfvar; ++ip)`. -/
def FLOOP {σ : Type} (nfvar : Int) (body : Int → σ → σ) (s : σ) : σ :=
  forLoop nfvar.toNat body s

/-- Modelled from the spec: the macro `PLOOP` of `decs.hpp` (not part of the sources at hand),
the loop over all `nvar` primitive slots of which `FLOOP` is the "fluid only" version. -/
def PLOOP {σ : Type} (nvar : Int) (body : Int → σ → σ) (s : σ) : σ :=
  forLoop nvar.toNat body s

/-- The slots of `VarMap` read by the implicit solver; a negative slot means "absent". -/
structure VarMap where
  Q : Int
  DP : Int
  deriving DecidableEq

/-- The physics routines called by `calc_residual`; their bodies live in
`flux_functions.hpp` and `emhd_sources.hpp`, so they are parameters here, with the
argument order of the call sites.  Output arguments are returned. -/
structure Physics (GRCoordinates EMHD_parameters : Type) where
  /-- The call `Flux::p_to_u(G, P, m_p, emhd_params, gam, j, i, U, m_u)`, returning `U`. -/
  p_to_u : GRCoordinates → Vec → VarMap → EMHD_parameters → ℚ → Int → Int → VarMap → Vec
  /-- The call `EMHD::implicit_sources(G, P, m_p, gam, j, i, emhd_params, dUq, dUdP)`,
  returning `(dUq, dUdP)`. -/
  implicit_sources : GRCoordinates → Vec → VarMap → ℚ → Int → Int → EMHD_parameters → ℚ × ℚ
  /-- The call
  `EMHD::time_derivative_sources(G, P, Pi, Ps, m_p, emhd_params, gam, dt, j, i, dUq, dUdP)`,
  returning `(dUq, dUdP)`. -/
  time_derivative_sources :
    GRCoordinates → Vec → Vec → Vec → VarMap → EMHD_parameters → ℚ → ℚ → Int → Int → ℚ × ℚ

/-- The by-value / read-only scalar arguments that `calc_jacobian` hands on unchanged to
`calc_residual`. -/
structure ZoneArgs (GRCoordinates EMHD_parameters : Type) where
  G : GRCoordinates
  m_p : VarMap
  m_u : VarMap
  emhd_params : EMHD_parameters
  nfvar : Int
  j : Int
  i : Int
  gam : ℚ
  dt : ℚ

/-- The view arguments of `calc_residual`, in the order of its signature. -/
structure ResidualViews where
  P_test : Local
  Pi : Local
  Ui : Local
  Ps : Local
  dudt_explicit : Local
  dUi : Local
  tmp : Local
  residual : Local
  deriving DecidableEq

variable {GRCoordinates EMHD_parameters : Type}

/-- The function `calc_residual` of `implicit.hpp`. -/
def calc_residual (F : Physics GRCoordinates EMHD_parameters)
    (z : ZoneArgs GRCoordinates EMHD_parameters) (a : ResidualViews) (m : Mem) : Mem :=
  -- Flux::p_to_u(G, P_test, m_p, emhd_params, gam, j, i, tmp, m_u); // U_test
  let m := m.fill a.tmp (F.p_to_u z.G (m.read a.P_test) z.m_p z.emhd_params z.gam z.j z.i z.m_u)
  -- FLOOP residual(ip) = (tmp(ip) - Ui(ip)) / dt - dudt_explicit(ip);
  let m := FLOOP z.nfvar
    (fun ip m => m.set a.residual ip ((m.read a.tmp ip - m.read a.Ui ip) / z.dt - m.read a.dudt_explicit ip)) m
  if z.m_p.Q ≥ 0 then
    -- EMHD::implicit_sources(G, P_test, m_p, gam, j, i, emhd_params, dUq, dUdP);
    let s := F.implicit_sources z.G (m.read a.P_test) z.m_p z.gam z.j z.i z.emhd_params
    -- residual(m_u.Q) -= 0.5*(dUq + dUi(m_u.Q));
    let m := m.set a.residual z.m_u.Q (m.read a.residual z.m_u.Q - 0.5 * (s.1 + m.read a.dUi z.m_u.Q))
    -- residual(m_u.DP) -= 0.5*(dUdP + dUi(m_u.DP));
    let m := m.set a.residual z.m_u.DP (m.read a.residual z.m_u.DP - 0.5 * (s.2 + m.read a.dUi z.m_u.DP))
    -- EMHD::time_derivative_sources(G, P_test, Pi, Ps, m_p, emhd_params, gam, dt, j, i, dUq, dUdP);
    let t := F.time_derivative_sources z.G (m.read a.P_test) (m.read a.Pi) (m.read a.Ps) z.m_p z.emhd_params
      z.gam z.dt z.j z.i
    -- residual(m_u.Q) -= dUq;
    let m := m.set a.residual z.m_u.Q (m.read a.residual z.m_u.Q - t.1)
    -- residual(m_u.DP) -= dUdP;
    let m := m.set a.residual z.m_u.DP (m.read a.residual z.m_u.DP - t.2)
    m
  else
    m

/-- The view arguments of `calc_jacobian`, in the order of its signature. -/
structure JacobianViews where
  P : Local
  Pi : Local
  Ui : Local
  Ps : Local
  dudt_explicit : Local
  dUi : Local
  tmp1 : Local
  tmp2 : Local
  tmp3 : Local
  residual : Local
  deriving DecidableEq

/-- The memory seen by `calc_jacobian`: the 1-D views and the one 2-D view `jacobian`. -/
structure State where
  mem : Mem
  jacobian : Int → Int → ℚ

/-- The store `jacobian(row, col) = x`. -/
def State.setJac (s : State) (row col : Int) (x : ℚ) : State :=
  { s with jacobian := fun r c => if r = row ∧ c = col then x else s.jacobian r c }

/-- The view arguments of the baseline call `calc_residual(G, P, ..., tmp3, ..., residual)`. -/
def JacobianViews.baseline (a : JacobianViews) : ResidualViews :=
  ⟨a.P, a.Pi, a.Ui, a.Ps, a.dudt_explicit, a.dUi, a.tmp3, a.residual⟩

/-- The view arguments of the call `calc_residual(G, P_delta, ..., tmp3, ..., residual_delta)`
with `P_delta = tmp1` and `residual_delta = tmp2`. -/
def JacobianViews.perturbed (a : JacobianViews) : ResidualViews :=
  ⟨a.tmp1, a.Pi, a.Ui, a.Ps, a.dudt_explicit, a.dUi, a.tmp3, a.tmp2⟩

/-- One pass of the body of the `col` loop of `calc_jacobian`.  `SMALL` is a constant of
`decs.hpp` (not part of the sources at hand) and is a parameter. -/
def jacobian_column (F : Physics GRCoordinates EMHD_parameters)
    (z : ZoneArgs GRCoordinates EMHD_parameters) (a : JacobianViews)
    (jac_delta SMALL : ℚ) (col : Int) (s : State) : State :=
  let P_delta := a.tmp1
  let residual_delta := a.tmp2
  -- if (abs(P(col)) < (0.5 * jac_delta)) P_delta(col) = P(col) + jac_delta;
  -- else P_delta(col) = (1 + jac_delta) * P(col);
  let m :=
    if |s.mem.read a.P col| < 0.5 * jac_delta then
      s.mem.set P_delta col (s.mem.read a.P col + jac_delta)
    else
      s.mem.set P_delta col ((1 + jac_delta) * s.mem.read a.P col)
  -- calc_residual(G, P_delta, Pi, Ui, Ps, dudt_explicit, dUi, tmp3, ..., residual_delta);
  let m := calc_residual F z a.perturbed m
  -- for (int row = 0; row < nfvar; row++) jacobian(row, col) = ...
  let s := forLoop z.nfvar.toNat
    (fun row s => s.setJac row col
      ((s.mem.read residual_delta row - s.mem.read a.residual row)
        / (s.mem.read P_delta col - s.mem.read a.P col + SMALL)))
    { s with mem := m }
  -- P_delta(col) = P(col);
  { s with mem := s.mem.set P_delta col (s.mem.read a.P col) }

/-- The function `calc_jacobian` of `implicit.hpp`. -/
def calc_jacobian (F : Physics GRCoordinates EMHD_parameters)
    (z : ZoneArgs GRCoordinates EMHD_parameters) (a : JacobianViews)
    (nvar : Int) (jac_delta SMALL : ℚ) (s : State) : State :=
  -- calc_residual(G, P, Pi, Ui, Ps, dudt_explicit, dUi, tmp3, ..., residual);
  let m := calc_residual F z a.baseline s.mem
  let P_delta := a.tmp1
  -- PLOOP P_delta(ip) = P(ip);
  let m := PLOOP nvar (fun ip m => m.set P_delta ip (m.read a.P ip)) m
  -- for (int col = 0; col < nfvar; col++) { ... }
  forLoop z.nfvar.toNat (jacobian_column F z a jac_delta SMALL) { s with mem := m }

/-- The written views of `calc_residual` (`tmp`, `residual`) are two different views, and
neither is one of the read-only views. -/
def ResidualViews.NoAlias (a : ResidualViews) : Prop :=
  a.tmp ≠ a.residual ∧
    ∀ v ∈ [a.P_test, a.Pi, a.Ui, a.Ps, a.dudt_explicit, a.dUi], v ≠ a.tmp ∧ v ≠ a.residual

instance (a : ResidualViews) : Decidable a.NoAlias := by
  unfold ResidualViews.NoAlias; infer_instance

/-- The conserved state `U_test = Flux::p_to_u(P_test)` of the zone. -/
def U_test (F : Physics GRCoordinates EMHD_parameters)
    (z : ZoneArgs GRCoordinates EMHD_parameters) (P_test : Vec) : Vec :=
  F.p_to_u z.G P_test z.m_p z.emhd_params z.gam z.j z.i z.m_u

/-- The plain flux-balance term `(U_test[ip] - Ui[ip]) / dt - dudt_explicit[ip]`. -/
def fluxbal (F : Physics GRCoordinates EMHD_parameters)
    (z : ZoneArgs GRCoordinates EMHD_parameters) (P_test Ui dudt_explicit : Vec) (ip : Int) : ℚ :=
  (U_test F z P_test ip - Ui ip) / z.dt - dudt_explicit ip

/-- The contents that `calc_residual` leaves in the view `residual`, as a function of the
contents of the views it reads and of the previous contents `old` of `residual`. -/
def residual_value (F : Physics GRCoordinates EMHD_parameters)
    (z : ZoneArgs GRCoordinates EMHD_parameters)
    (P_test Pi Ui Ps dudt_explicit dUi old : Vec) : Vec :=
  let r : Vec := fun ip =>
    if 0 ≤ ip ∧ ip < z.nfvar then fluxbal F z P_test Ui dudt_explicit ip else old ip
  if z.m_p.Q ≥ 0 then
    let s := F.implicit_sources z.G P_test z.m_p z.gam z.j z.i z.emhd_params
    let r := Function.update r z.m_u.Q (r z.m_u.Q - 0.5 * (s.1 + dUi z.m_u.Q))
    let r := Function.update r z.m_u.DP (r z.m_u.DP - 0.5 * (s.2 + dUi z.m_u.DP))
    let t := F.time_derivative_sources z.G P_test Pi Ps z.m_p z.emhd_params z.gam z.dt z.j z.i
    let r := Function.update r z.m_u.Q (r z.m_u.Q - t.1)
    let r := Function.update r z.m_u.DP (r z.m_u.DP - t.2)
    r
  else
    r

/-- The frame condition "no side effects" for one call of `calc_residual`: every view
argument other than `residual` holds afterwards what it held before, and `residual` is
unchanged from index `nfvar` on. -/
def NoSideEffects (F : Physics GRCoordinates EMHD_parameters)
    (z : ZoneArgs GRCoordinates EMHD_parameters) (a : ResidualViews) (m : Mem) : Prop :=
  (∀ v ∈ [a.P_test, a.Pi, a.Ui, a.Ps, a.dudt_explicit, a.dUi, a.tmp],
      (calc_residual F z a m).read v = m.read v) ∧
    ∀ ip, z.nfvar ≤ ip → (calc_residual F z a m).read a.residual ip = m.read a.residual ip

/-- The written views of `calc_jacobian` (`tmp1`, `tmp2`, `tmp3`, `residual`) are four
different views, and none of them is one of the read-only views. -/
def JacobianViews.NoAlias (a : JacobianViews) : Prop :=
  [a.tmp1, a.tmp2, a.tmp3, a.residual].Nodup ∧
    ∀ v ∈ [a.P, a.Pi, a.Ui, a.Ps, a.dudt_explicit, a.dUi],
      v ≠ a.tmp1 ∧ v ≠ a.tmp2 ∧ v ≠ a.tmp3 ∧ v ≠ a.residual

instance (a : JacobianViews) : Decidable a.NoAlias := by
  unfold JacobianViews.NoAlias; infer_instance

/-- The physics routines see views of `nvar` entries: what they return, and the conserved
variables they store in slots `[0, nvar)`, depend on slots `[0, nvar)` of the trial state
only. -/
def Physics.ReadsOnly (F : Physics GRCoordinates EMHD_parameters)
    (z : ZoneArgs GRCoordinates EMHD_parameters) (nvar : Int) : Prop :=
  ∀ X X' : Vec, (∀ ip, 0 ≤ ip → ip < nvar → X ip = X' ip) →
    (∀ ip, 0 ≤ ip → ip < nvar →
      F.p_to_u z.G X z.m_p z.emhd_params z.gam z.j z.i z.m_u ip
        = F.p_to_u z.G X' z.m_p z.emhd_params z.gam z.j z.i z.m_u ip) ∧
    F.implicit_sources z.G X z.m_p z.gam z.j z.i z.emhd_params
        = F.implicit_sources z.G X' z.m_p z.gam z.j z.i z.emhd_params ∧
    ∀ Pi Ps : Vec,
      F.time_derivative_sources z.G X Pi Ps z.m_p z.emhd_params z.gam z.dt z.j z.i
        = F.time_derivative_sources z.G X' Pi Ps z.m_p z.emhd_params z.gam z.dt z.j z.i

/-- The value stored to `P_delta(col)` when `P(col) = x`. -/
def P_delta_at (jac_delta x : ℚ) : ℚ :=
  if |x| < 0.5 * jac_delta then x + jac_delta else (1 + jac_delta) * x

/-- The divisor `P_delta(col) - P(col) + SMALL` of the forward difference when
`P(col) = x`. -/
def denominator (jac_delta SMALL x : ℚ) : ℚ :=
  P_delta_at jac_delta x - x + SMALL

/-- The perturbation rule of the specification: the absolute step `jac_delta` when
`|P[col]| < jac_delta / 2`, the relative step `jac_delta * P[col]` otherwise. -/
def h_step (jac_delta x : ℚ) : ℚ :=
  if |x| < jac_delta / 2 then jac_delta else jac_delta * x

/-- A memory holding the trial state and the zone context in views `0 .. 5`, zero elsewhere. -/
def zoneMem (P_test Pi Ui Ps dudt_explicit dUi : Vec) : Mem :=
  ⟨fun v => match v with
    | 0 => P_test
    | 1 => Pi
    | 2 => Ui
    | 3 => Ps
    | 4 => dudt_explicit
    | 5 => dUi
    | _ => fun _ => 0⟩

/-- The residual vector `R(P_test)` of a zone: what a stand-alone call of `calc_residual`,
with eight different views, leaves in its `residual` view. -/
def residual_of (F : Physics GRCoordinates EMHD_parameters)
    (z : ZoneArgs GRCoordinates EMHD_parameters)
    (P_test Pi Ui Ps dudt_explicit dUi : Vec) : Vec :=
  (calc_residual F z ⟨0, 1, 2, 3, 4, 5, 6, 7⟩
    (zoneMem P_test Pi Ui Ps dudt_explicit dUi)).read 7

/-! ### A small concrete zone, used to run the definitions -/

/-- A toy physics: `U = 2 P + 1` slot by slot, relaxation sources read off slots 0 and 1. -/
def exPhysics : Physics Unit Unit where
  p_to_u := fun _ P _ _ _ _ _ _ => fun ip => 2 * P ip + 1
  implicit_sources := fun _ P _ _ _ _ _ => (P 0, P 1)
  time_derivative_sources := fun _ P Pi Ps _ _ _ _ _ _ => (P 0 - Pi 0, P 1 - Ps 1)

/-- Eight different views for the eight view arguments of `calc_residual`. -/
def exViews : ResidualViews := ⟨0, 1, 2, 3, 4, 5, 6, 7⟩

/-- View number `v` holds `v + ip` at index `ip`. -/
def exMem : Mem := ⟨fun v ip => (v : ℚ) + (ip : ℚ)⟩

/-- A zone with two implicit variables and no extended model (`m_p.Q = -1`). -/
def exZoneIdeal : ZoneArgs Unit Unit :=
  { G := (), m_p := ⟨-1, -1⟩, m_u := ⟨-1, -1⟩, emhd_params := (), nfvar := 2, j := 0, i := 0,
    gam := 4 / 3, dt := 1 / 2 }

/-- A zone with two implicit variables, both of the extended model (`Q` in slot 0, `DP` in
slot 1). -/
def exZoneEMHD : ZoneArgs Unit Unit :=
  { G := (), m_p := ⟨0, 1⟩, m_u := ⟨0, 1⟩, emhd_params := (), nfvar := 2, j := 0, i := 0,
    gam := 4 / 3, dt := 1 / 2 }

/-- Ten different views for the ten view arguments of `calc_jacobian`. -/
def exJViews : JacobianViews := ⟨0, 1, 2, 3, 4, 5, 6, 7, 8, 9⟩

/-- The memory `exMem` with a zeroed Jacobian. -/
def exState : State := ⟨exMem, fun _ _ => 0⟩

/-- A state that agrees with `exState` on the read-only views `0 .. 5` and holds other
values in the scratch views, in `residual` and in `jacobian`. -/
def exStateJunk : State :=
  ⟨⟨fun v ip => if v < 6 then (v : ℚ) + (ip : ℚ) else 100 - (v : ℚ) * (ip : ℚ)⟩,
    fun r c => (r : ℚ) - (c : ℚ)⟩

/-- The residual of the zone is affine in the trial state: `R(X) = A X - b` on rows
`[0, nfvar)`, for the context `Pi, Ui, Ps, dudt_explicit, dUi`. -/
def AffineResidual (F : Physics GRCoordinates EMHD_parameters)
    (z : ZoneArgs GRCoordinates EMHD_parameters) (Pi Ui Ps dudt_explicit dUi : Vec)
    (A : Int → Int → ℚ) (b : Vec) : Prop :=
  ∀ (X : Vec) (row : Int), 0 ≤ row → row < z.nfvar →
    residual_of F z X Pi Ui Ps dudt_explicit dUi row
      = (∑ c in Finset.range z.nfvar.toNat, A row (c : Int) * X (c : Int)) - b row

/-- The assignment to `P_delta(col)` at the head of a pass of the `col` loop:
`P(col) + jac_delta` if `abs(P(col)) < 0.5 * jac_delta`, else `(1 + jac_delta) * P(col)`. -/
def perturb_column (a : JacobianViews) (jac_delta : ℚ) (col : Int) (m : Mem) : Mem :=
  if |m.read a.P col| < 0.5 * jac_delta then
    m.set a.tmp1 col (m.read a.P col + jac_delta)
  else
    m.set a.tmp1 col ((1 + jac_delta) * m.read a.P col)

/-- The state in which `calc_jacobian` enters its `col` loop: after the baseline call of
`calc_residual` and `PLOOP P_delta(ip) = P(ip)`. -/
def column_loop_entry (F : Physics GRCoordinates EMHD_parameters)
    (z : ZoneArgs GRCoordinates EMHD_parameters) (a : JacobianViews) (nvar : Int)
    (s : State) : State :=
  { s with
    mem := PLOOP nvar (fun ip m => m.set a.tmp1 ip (m.read a.P ip))
      (calc_residual F z a.baseline s.mem) }

/-- The memory handed to the perturbed call `calc_residual(G, P_delta, ...)` in pass `col`
of the `col` loop of `calc_jacobian`: passes `0 .. col - 1` have run, and `P_delta(col)` has
been assigned. -/
def perturbed_call_mem (F : Physics GRCoordinates EMHD_parameters)
    (z : ZoneArgs GRCoordinates EMHD_parameters) (a : JacobianViews) (nvar : Int)
    (jac_delta SMALL : ℚ) (s : State) (col : Int) : Mem :=
  perturb_column a jac_delta col
    (forLoop col.toNat (jacobian_column F z a jac_delta SMALL)
      (column_loop_entry F z a nvar s)).mem

end Implicit

namespace SeedB

open Implicit (forLoop)

/-- The enum `BSeedType` of `seed_B.cpp`. -/
inductive BSeedType where
  | sane
  | ryan
  | r3s3
  | gaussian
  deriving DecidableEq

/-- The primitive-variable indices `prims::rho`, ... of `decs.hpp` (not part of the sources
at hand). -/
inductive prims where
  | rho
  | u
  | u1
  | u2
  | u3
  | B1
  | B2
  | B3
  deriving DecidableEq

/-- The zone locations `Loci::...` of `decs.hpp` (not part of the sources at hand). -/
inductive Loci where
  | face1
  | face2
  | face3
  | center
  | corner
  deriving DecidableEq

/-- The contents of a `GridVars` view, addressed `P(p, k, j, i)`. -/
@[ext] structure GridVars where
  read : prims → Int → Int → Int → ℚ

/-- The store `P(p, k, j, i) = x`. -/
def GridVars.set (P : GridVars) (p : prims) (k j i : Int) (x : ℚ) : GridVars :=
  ⟨fun p' k' j' i' => if p' = p ∧ k' = k ∧ j' = j ∧ i' = i then x else P.read p' k' j' i'⟩

/-- The contents of a 2-D `ParArrayND<Real>`, addressed `A(j, i)`. -/
@[ext] structure ParArray2 where
  read : Int → Int → ℚ

/-- The store `A(j, i) = x`. -/
def ParArray2.set (A : ParArray2) (j i : Int) (x : ℚ) : ParArray2 :=
  ⟨fun j' i' => if j' = j ∧ i' = i then x else A.read j' i'⟩

/-- What `SeedBField` reads of the `MeshBlock`: the cell counts (ghost zones included) and
the cell widths `pcoord->dx1v(i)`, `pcoord->dx2v(j)`. -/
structure MeshBlock where
  ncells1 : Int
  ncells2 : Int
  ncells3 : Int
  dx1v : Int → ℚ
  dx2v : Int → ℚ

/-- What `SeedBField` reads of the `Grid`: `coord_embed(k, j, i, loc, Xembed)` as the function
giving `Xembed[mu]`, and `gdet(loc, j, i)`. -/
structure Grid where
  coord_embed : Int → Int → Int → Loci → Int → ℚ
  gdet : Loci → Int → Int → ℚ

/-- The functions of the C math library used by `SeedBField` that have no exact rational
value; they are parameters.  `pow(x, 3)` is the exact cube and `fabs`, `max` are exact. -/
structure Libm where
  sin : ℚ → ℚ
  exp : ℚ → ℚ
  sqrt : ℚ → ℚ
  log : ℚ → ℚ
  M_PI : ℚ

/-- The exception `std::invalid_argument(what)`. -/
inductive Exception where
  | invalid_argument (what : String)
  deriving DecidableEq

/-- How a call of `SeedBField` ends: the exception thrown, if any, and the contents of `P`
at that point. -/
structure Outcome where
  thrown : Option Exception
  P : GridVars

/-- A loop over the inclusive index range `[lo, hi]`. -/
def forRange {σ : Type} (lo hi : Int) (body : Int → σ → σ) (s : σ) : σ :=
  forLoop (hi + 1 - lo).toNat (fun n => body (lo + n)) s

/-- The 2-D `pmb->par_for(name, jl, ju, il, iu, KOKKOS_LAMBDA_2D {...})` of Parthenon (not
part of the sources at hand): the body runs once for every `(j, i)` of the inclusive ranges. -/
def par_for2 {σ : Type} (jl ju il iu : Int) (body : Int → Int → σ → σ) (s : σ) : σ :=
  forRange jl ju (fun j => forRange il iu (fun i => body j i)) s

/-- The 3-D `pmb->par_for(name, kl, ku, jl, ju, il, iu, KOKKOS_LAMBDA_3D {...})`. -/
def par_for3 {σ : Type} (kl ku jl ju il iu : Int) (body : Int → Int → Int → σ → σ) (s : σ) : σ :=
  forRange kl ku (fun k => forRange jl ju (fun j => forRange il iu (fun i => body k j i))) s

/-- The density at the corner `(j, i)`, averaged from the adjacent centers. -/
def rho_av (P : GridVars) (j i : Int) : ℚ :=
  0.25 * (P.read prims.rho 0 j i + P.read prims.rho 0 j (i - 1) +
          P.read prims.rho 0 (j - 1) i + P.read prims.rho 0 (j - 1) (i - 1))

/-- The value `q` computed by the `switch (b_field_flag)` of the kernel `B_field_A`. -/
def q_of (L : Libm) (G : Grid) (P : GridVars) (rin min_rho_q : ℚ) (b_field_flag : BSeedType)
    (j i : Int) : ℚ :=
  -- G.coord_embed(0, j, i, Loci::center, Xembed); r = Xembed[1], th = Xembed[2];
  let r := G.coord_embed 0 j i Loci.center 1
  let th := G.coord_embed 0 j i Loci.center 2
  let rho_av := rho_av P j i
  match b_field_flag with
  | BSeedType.sane => rho_av - min_rho_q
  | BSeedType.ryan =>
    (L.sin th) ^ 3 * (r / rin) ^ 3 * L.exp (-r / 400) * rho_av - min_rho_q
  | BSeedType.r3s3 => (r / rin) ^ 3 * rho_av - min_rho_q
  | BSeedType.gaussian =>
    let x := (r / rin) * L.sin th
    let sigma := 2 / L.sqrt (2 * L.log 2)
    let u := x / |sigma|
    (1 / (L.sqrt (2 * L.M_PI) * |sigma|)) * L.exp (-u * u / 2)

/-- The kernel `B_field_A`: it fills the vector potential `A`, zero-initialised, at the
corners `1 <= j <= ncells2 - 1`, `1 <= i <= ncells1 - 1`. -/
def B_field_A (L : Libm) (pmb : MeshBlock) (G : Grid) (P : GridVars) (rin min_rho_q : ℚ)
    (b_field_flag : BSeedType) : ParArray2 :=
  -- ParArrayND<Real> A("A", pmb->ncells2, pmb->ncells1);
  let A : ParArray2 := ⟨fun _ _ => 0⟩
  par_for2 1 (pmb.ncells2 - 1) 1 (pmb.ncells1 - 1)
    (fun j i A => A.set j i (max (q_of L G P rin min_rho_q b_field_flag j i) 0)) A

/-- The kernel `B_field_B`: a flux-ct step from the corner potentials. -/
def B_field_B (pmb : MeshBlock) (G : Grid) (A : ParArray2) (P : GridVars) : GridVars :=
  par_for3 0 (pmb.ncells3 - 2) 0 (pmb.ncells2 - 2) 0 (pmb.ncells1 - 2)
    (fun k j i P =>
      let P := P.set prims.B1 k j i
        (-(A.read j i - A.read (j + 1) i + A.read j (i + 1) - A.read (j + 1) (i + 1)) /
          (2 * pmb.dx2v j * G.gdet Loci.center j i))
      let P := P.set prims.B2 k j i
        ((A.read j i + A.read (j + 1) i - A.read j (i + 1) - A.read (j + 1) (i + 1)) /
          (2 * pmb.dx1v i * G.gdet Loci.center j i))
      P.set prims.B3 k j i 0) P

/-- The translation of `b_field_type` to the enum, by the `if` chain of `SeedBField` after
its `"none"` test; `none` stands for the final `else` (the `throw`). -/
def b_field_flag_of (b_field_type : String) : Option BSeedType :=
  if b_field_type = "sane" then some BSeedType.sane
  else if b_field_type = "ryan" then some BSeedType.ryan
  else if b_field_type = "r3s3" then some BSeedType.r3s3
  else if b_field_type = "gaussian" then some BSeedType.gaussian
  else none

/-- The function `SeedBField` of `seed_B.cpp`. -/
def SeedBField (L : Libm) (pmb : MeshBlock) (G : Grid) (P : GridVars) (rin min_rho_q : ℚ)
    (b_field_type : String) : Outcome :=
  if b_field_type = "none" then
    -- return;
    ⟨none, P⟩
  else
    match b_field_flag_of b_field_type with
    | none =>
      -- throw std::invalid_argument("Magnetic field seed type not supported: " + b_field_type);
      ⟨some (Exception.invalid_argument
        ("Magnetic field seed type not supported: " ++ b_field_type)), P⟩
    | some b_field_flag =>
      let A := B_field_A L pmb G P rin min_rho_q b_field_flag
      ⟨none, B_field_B pmb G A P⟩

/-- The local array `A` of `SeedBField` at the point where the kernel `B_field_B` starts:
the `if` chain on `b_field_type` of `SeedBField`, then the kernel `B_field_A`; `none` when
`SeedBField` has returned or thrown before. -/
def SeedBField_A (L : Libm) (pmb : MeshBlock) (G : Grid) (P : GridVars) (rin min_rho_q : ℚ)
    (b_field_type : String) : Option ParArray2 :=
  if b_field_type = "none" then
    none
  else
    match b_field_flag_of b_field_type with
    | none => none
    | some b_field_flag => some (B_field_A L pmb G P rin min_rho_q b_field_flag)

/-! ### A small concrete block, used to run the definitions -/

/-- Stand-ins for the math library (only their being functions matters below). -/
def exLibm : Libm := ⟨fun x => x / 2, fun _ => 1, fun x => x, fun x => x, 3⟩

/-- A block of `4 x 4 x 2` cells of unit width. -/
def exBlock : MeshBlock := ⟨4, 4, 2, fun _ => 1, fun _ => 1⟩

/-- A grid with `r = 2` and `th = 1` everywhere and `gdet = 1`. -/
def exGrid : Grid := ⟨fun _ _ _ _ mu => if mu = 1 then 2 else 1, fun _ _ _ => 1⟩

/-- Primitives with density `1/10` everywhere and zero otherwise. -/
def exP : GridVars := ⟨fun p _ _ _ => if p = prims.rho then 1 / 10 else 0⟩

/-- What the kernel `B_field_B` leaves in `P(p, k, j, i)` at a zone it visits, `old` being
what was there: the flux-ct values for `B1`, `B2`, zero for `B3`, `old` for the others. -/
def B_field_B_zone (pmb : MeshBlock) (G : Grid) (A : ParArray2) (p : prims) (j i : Int)
    (old : ℚ) : ℚ :=
  match p with
  | prims.B1 =>
    -(A.read j i - A.read (j + 1) i + A.read j (i + 1) - A.read (j + 1) (i + 1)) /
      (2 * pmb.dx2v j * G.gdet Loci.center j i)
  | prims.B2 =>
    (A.read j i + A.read (j + 1) i - A.read j (i + 1) - A.read (j + 1) (i + 1)) /
      (2 * pmb.dx1v i * G.gdet Loci.center j i)
  | prims.B3 => 0
  | _ => old

/-- The transformer `f` of `GridVars` replaces the contents of the zones of the region `R`
by `upd` of what they held, and leaves the other zones as they were. -/
def ZoneUpdate (upd : prims → Int → Int → ℚ → ℚ) (R : Int → Int → Int → Prop)
    (f : GridVars → GridVars) : Prop :=
  ∀ (P : GridVars) (p : prims) (k j i : Int),
    (R k j i → (f P).read p k j i = upd p j i (P.read p k j i)) ∧
    (¬ R k j i → (f P).read p k j i = P.read p k j i)

/-- Modelled from the spec: the corner-centered Flux-CT divergence of `gdet * B` at the
corner `(j, i)` of the plane `k`, for uniform spacings `dx1`, `dx2`.  The repository
computes its `divB` in `fluxes.cpp`, which is not part of the sources at hand. -/
def divB (G : Grid) (P : GridVars) (dx1 dx2 : ℚ) (k j i : Int) : ℚ :=
  let gB1 := fun (j i : Int) => G.gdet Loci.center j i * P.read prims.B1 k j i
  let gB2 := fun (j i : Int) => G.gdet Loci.center j i * P.read prims.B2 k j i
  (gB1 j i + gB1 (j - 1) i - gB1 j (i - 1) - gB1 (j - 1) (i - 1)) / (2 * dx1)
    + (gB2 j i + gB2 j (i - 1) - gB2 (j - 1) i - gB2 (j - 1) (i - 1)) / (2 * dx2)

end SeedB

namespace NewtonDriver

/-- Modelled from the spec: the states of the per-zone state machine of the Newton solve
invoked by `Implicit::Step`, `INIT → ITERATE → {CONVERGED, MAX_ITERS_EXCEEDED, FAILED}`.
`implicit.hpp` only declares `Step`; its body is not part of the sources at hand. -/
inductive Phase where
  | INIT
  | ITERATE
  | CONVERGED
  | MAX_ITERS_EXCEEDED
  | FAILED
  deriving DecidableEq

/-- The terminal states: all except `INIT` and `ITERATE`. -/
def Phase.terminal : Phase → Bool
  | Phase.CONVERGED => true
  | Phase.MAX_ITERS_EXCEEDED => true
  | Phase.FAILED => true
  | _ => false

/-- Modelled from the spec: what one zone's solve is configured with.  `TrialState` is the
primitive state of the zone, `Delta` a Newton step.
* `max_iters`: the configured cap on the iteration count;
* `linear_solve P`: builds residual and Jacobian at `P` and solves `Jacobian · Δ = -residual`,
  `none` when the Jacobian is effectively singular;
* `apply_step P Δ`: applies `Δ` to the implicit slots, damped so as to stay admissible,
  `none` when the state is non-finite or unphysical beyond what damping can repair;
* `converged P`: the convergence criterion against the configured tolerance;
* `fallback guess P`: the deterministic fallback of both failure states. -/
structure Config (TrialState Delta : Type) where
  max_iters : Nat
  linear_solve : TrialState → Option Delta
  apply_step : TrialState → Delta → Option TrialState
  converged : TrialState → Bool
  fallback : TrialState → TrialState → TrialState

/-- Modelled from the spec: the state of one zone's solve: the phase, the number of
iterations made, the initial guess, and the trial state (in a terminal phase, the state
returned). -/
structure Machine (TrialState : Type) where
  phase : Phase
  iter : Nat
  guess : TrialState
  P : TrialState

/-- Modelled from the spec: the machine in `INIT`, seeded from the caller's initial guess. -/
def init {TrialState : Type} (guess : TrialState) : Machine TrialState :=
  ⟨Phase.INIT, 0, guess, guess⟩

/-- Modelled from the spec: one transition of the state machine of section 4.3.  In
`ITERATE`, the iteration count having reached the cap without convergence gives
`MAX_ITERS_EXCEEDED`; otherwise one Newton iteration is made, which gives `FAILED` (singular
Jacobian, or a state that damping cannot repair), `CONVERGED`, or `ITERATE` again.  Both
failure states return the fallback state.  Terminal states do not move. -/
def step {TrialState Delta : Type} (cfg : Config TrialState Delta)
    (m : Machine TrialState) : Machine TrialState :=
  match m.phase with
  | Phase.INIT => { m with phase := Phase.ITERATE, iter := 0, P := m.guess }
  | Phase.ITERATE =>
    if cfg.max_iters ≤ m.iter then
      { m with phase := Phase.MAX_ITERS_EXCEEDED, P := cfg.fallback m.guess m.P }
    else
      match cfg.linear_solve m.P with
      | none => { m with phase := Phase.FAILED, iter := m.iter + 1,
                         P := cfg.fallback m.guess m.P }
      | some delta =>
        match cfg.apply_step m.P delta with
        | none => { m with phase := Phase.FAILED, iter := m.iter + 1,
                           P := cfg.fallback m.guess m.P }
        | some P' =>
          if cfg.converged P' then
            { m with phase := Phase.CONVERGED, iter := m.iter + 1, P := P' }
          else
            { m with phase := Phase.ITERATE, iter := m.iter + 1, P := P' }
  | _ => m

/-- The machine after `n` transitions. -/
def run {TrialState Delta : Type} (cfg : Config TrialState Delta) :
    Nat → Machine TrialState → Machine TrialState
  | 0, m => m
  | n + 1, m => run cfg n (step cfg m)

/-- Modelled from the spec: the per-zone Newton solve: the machine is run from `INIT` for
`max_iters + 2` transitions (one to leave `INIT`, at most `max_iters` iterations, one to
leave `ITERATE` at the cap). -/
def solve {TrialState Delta : Type} (cfg : Config TrialState Delta) (guess : TrialState) :
    Machine TrialState :=
  run cfg (cfg.max_iters + 2) (init guess)

/-- A scalar test problem: Newton's iteration for `x^2 = 2` on the rationals, at most
`max_iters` iterations, converged when `|x^2 - 2| < 1/100`. -/
def exConfig (max_iters : Nat) : Config ℚ ℚ where
  max_iters := max_iters
  linear_solve := fun x => if 2 * x = 0 then none else some (-(x ^ 2 - 2) / (2 * x))
  apply_step := fun x d => some (x + d)
  converged := fun x => decide (|x ^ 2 - 2| < 1 / 100)
  fallback := fun guess _ => guess

end NewtonDriver

/-! ## Theorems -/

namespace Implicit

variable {GRCoordinates EMHD_parameters : Type}

theorem Mem.set_eq_fill (m : Mem) (v : Local) (ip : Int) (x : ℚ) :
    m.set v ip x = m.fill v (Function.update (m.read v) ip x) := by
  apply Mem.ext
  funext w iq
  by_cases h1 : w = v <;> by_cases h2 : iq = ip
  · subst h1; subst h2; simp [Mem.set, Mem.fill]
  · subst h1; simp [Mem.set, Mem.fill, h2]
  · simp [Mem.set, Mem.fill, h1]
  · simp [Mem.set, Mem.fill, h1]

@[simp] theorem Mem.fill_same (m : Mem) (v : Local) (c : Vec) : (m.fill v c).read v = c := by
  simp [Mem.fill]

theorem Mem.fill_other (m : Mem) {v w : Local} (c : Vec) (h : w ≠ v) :
    (m.fill v c).read w = m.read w := by
  simp [Mem.fill, h]

@[simp] theorem Mem.fill_fill (m : Mem) (v : Local) (c c' : Vec) :
    (m.fill v c).fill v c' = m.fill v c' := by
  apply Mem.ext
  funext w
  by_cases h : w = v <;> simp [Mem.fill, h]

theorem forLoop_set (v : Local) (g : Int → Mem → ℚ)
    (hg : ∀ ip m m', (∀ w, w ≠ v → m.read w = m'.read w) → g ip m = g ip m') (n : Nat) (m : Mem) :
    forLoop n (fun ip m => m.set v ip (g ip m)) m
      = m.fill v (fun iq => if 0 ≤ iq ∧ iq < (n : Int) then g iq m else m.read v iq) := by
  induction n with
  | zero =>
    apply Mem.ext
    funext w iq
    have : ¬ (0 ≤ iq ∧ iq < 0) := by omega
    by_cases h : w = v
    · subst h; simp [forLoop, this, Mem.fill]
    · simp [forLoop, Mem.fill, h]
  | succ k ih =>
    have hk : g (k : Int) (forLoop k (fun ip m => m.set v ip (g ip m)) m) = g (k : Int) m := by
      apply hg
      intro w hw
      rw [ih, Mem.fill_other _ _ hw]
    simp only [forLoop]
    rw [hk, ih, Mem.set_eq_fill, Mem.fill_fill, Mem.fill_same]
    refine congrArg (Mem.fill m v) (funext fun iq => ?_)
    by_cases h2 : iq = (k : Int)
    · subst h2; simp
    · have : (0 ≤ iq ∧ iq < (k : Int) + 1) ↔ (0 ≤ iq ∧ iq < (k : Int)) := by omega
      simp [Function.update, h2, this]

theorem residualViews_distinct {a : ResidualViews} (h : a.NoAlias) :
    a.tmp ≠ a.residual ∧ a.P_test ≠ a.tmp ∧ a.P_test ≠ a.residual ∧ a.Pi ≠ a.tmp ∧
      a.Pi ≠ a.residual ∧ a.Ui ≠ a.tmp ∧ a.Ui ≠ a.residual ∧ a.Ps ≠ a.tmp ∧
      a.Ps ≠ a.residual ∧ a.dudt_explicit ≠ a.tmp ∧ a.dudt_explicit ≠ a.residual ∧
      a.dUi ≠ a.tmp ∧ a.dUi ≠ a.residual := by
  simpa [ResidualViews.NoAlias, and_assoc] using h

/-- The memory left by `calc_residual`, when its written views alias nothing else. -/
theorem calc_residual_eq (F : Physics GRCoordinates EMHD_parameters)
    (z : ZoneArgs GRCoordinates EMHD_parameters) (a : ResidualViews) (m : Mem)
    (h : a.NoAlias) :
    calc_residual F z a m
      = (m.fill a.tmp (U_test F z (m.read a.P_test))).fill a.residual
          (residual_value F z (m.read a.P_test) (m.read a.Pi) (m.read a.Ui) (m.read a.Ps) (m.read a.dudt_explicit)
            (m.read a.dUi) (m.read a.residual)) := by
  obtain ⟨h0, h1, h2, h3, h4, h5, h6, h7, h8, h9, h10, h11, h12⟩ := residualViews_distinct h
  unfold calc_residual FLOOP
  simp only []
  rw [forLoop_set a.residual
    (fun ip m => (m.read a.tmp ip - m.read a.Ui ip) / z.dt - m.read a.dudt_explicit ip)
    (by
      intro ip m m' hm
      simp only [hm a.tmp h0, hm a.Ui h6, hm a.dudt_explicit h10])]
  have hn : ∀ iq : Int, (0 ≤ iq ∧ iq < ((z.nfvar.toNat : Nat) : Int)) ↔ (0 ≤ iq ∧ iq < z.nfvar) := by
    intro iq; omega
  simp only [Mem.set_eq_fill, Mem.fill_fill, Mem.fill_same, Mem.fill_other _ _ h0,
    Mem.fill_other _ _ h0.symm, Mem.fill_other _ _ h1, Mem.fill_other _ _ h2,
    Mem.fill_other _ _ h3, Mem.fill_other _ _ h4, Mem.fill_other _ _ h5,
    Mem.fill_other _ _ h6, Mem.fill_other _ _ h7, Mem.fill_other _ _ h8,
    Mem.fill_other _ _ h9, Mem.fill_other _ _ h10, Mem.fill_other _ _ h11,
    Mem.fill_other _ _ h12, hn]
  unfold residual_value fluxbal U_test
  by_cases hQ : z.m_p.Q ≥ 0
  · simp only [hQ, if_true]
  · simp only [hQ, if_false]

theorem residual_value_absent (F : Physics GRCoordinates EMHD_parameters)
    (z : ZoneArgs GRCoordinates EMHD_parameters) (P_test Pi Ui Ps dudt_explicit dUi old : Vec)
    (hQ : z.m_p.Q < 0) (ip : Int) :
    residual_value F z P_test Pi Ui Ps dudt_explicit dUi old ip
      = if 0 ≤ ip ∧ ip < z.nfvar then fluxbal F z P_test Ui dudt_explicit ip else old ip := by
  have : ¬ z.m_p.Q ≥ 0 := by omega
  simp only [residual_value, this, if_false]

/-- Claim C1: with the extended model absent (`m_p.Q < 0`), `calc_residual` stores the plain
flux-balance term `(U_test[ip] - Ui[ip]) / dt - dudt_explicit[ip]` in every row `ip` of
`[0, nfvar)`, and the two source routines contribute nothing: any other pair of source
routines leaves the same memory. -/
theorem calc_residual_absent (F : Physics GRCoordinates EMHD_parameters)
    (z : ZoneArgs GRCoordinates EMHD_parameters) (a : ResidualViews) (m : Mem)
    (h : a.NoAlias) (hQ : z.m_p.Q < 0) :
    (∀ ip, 0 ≤ ip → ip < z.nfvar →
      (calc_residual F z a m).read a.residual ip
        = (U_test F z (m.read a.P_test) ip - m.read a.Ui ip) / z.dt - m.read a.dudt_explicit ip) ∧
    ∀ F' : Physics GRCoordinates EMHD_parameters, F'.p_to_u = F.p_to_u →
      calc_residual F' z a m = calc_residual F z a m := by
  constructor
  · intro ip h0 h1
    rw [calc_residual_eq F z a m h, Mem.fill_same, residual_value_absent F z _ _ _ _ _ _ _ hQ]
    simp [h0, h1, fluxbal]
  · intro F' hF
    have : ¬ z.m_p.Q ≥ 0 := by omega
    simp only [calc_residual, this, if_false, hF]

theorem calc_residual_absent_witness :
    (calc_residual exPhysics exZoneIdeal exViews exMem).read 7 0 = -6 ∧
      (calc_residual exPhysics exZoneIdeal exViews exMem).read 7 1 = -5 := by
  have h := (calc_residual_absent exPhysics exZoneIdeal exViews exMem (by decide)
    (by decide)).1
  constructor
  · rw [show (7 : Local) = exViews.residual from rfl, h 0 (by decide) (by decide)]
    norm_num [U_test, exPhysics, exMem, exViews, exZoneIdeal]
  · rw [show (7 : Local) = exViews.residual from rfl, h 1 (by decide) (by decide)]
    norm_num [U_test, exPhysics, exMem, exViews, exZoneIdeal]

/-- Claim C2: with the extended model present (`m_p.Q >= 0`) and `m_u.Q`, `m_u.DP` two
different slots of `[0, nfvar)`, rows `m_u.Q` and `m_u.DP` of the residual are the
flux-balance term minus `0.5 * (dU_new + dUi)` minus `dU_time`, and every other row of
`[0, nfvar)` is the plain flux-balance term. -/
theorem calc_residual_extended (F : Physics GRCoordinates EMHD_parameters)
    (z : ZoneArgs GRCoordinates EMHD_parameters) (a : ResidualViews) (m : Mem)
    (h : a.NoAlias) (hQ : z.m_p.Q ≥ 0)
    (hq0 : 0 ≤ z.m_u.Q) (hq1 : z.m_u.Q < z.nfvar)
    (hd0 : 0 ≤ z.m_u.DP) (hd1 : z.m_u.DP < z.nfvar) (hne : z.m_u.Q ≠ z.m_u.DP) :
    (calc_residual F z a m).read a.residual z.m_u.Q
        = fluxbal F z (m.read a.P_test) (m.read a.Ui) (m.read a.dudt_explicit) z.m_u.Q
          - 0.5 * ((F.implicit_sources z.G (m.read a.P_test) z.m_p z.gam z.j z.i z.emhd_params).1
              + m.read a.dUi z.m_u.Q)
          - (F.time_derivative_sources z.G (m.read a.P_test) (m.read a.Pi) (m.read a.Ps) z.m_p z.emhd_params
              z.gam z.dt z.j z.i).1 ∧
    (calc_residual F z a m).read a.residual z.m_u.DP
        = fluxbal F z (m.read a.P_test) (m.read a.Ui) (m.read a.dudt_explicit) z.m_u.DP
          - 0.5 * ((F.implicit_sources z.G (m.read a.P_test) z.m_p z.gam z.j z.i z.emhd_params).2
              + m.read a.dUi z.m_u.DP)
          - (F.time_derivative_sources z.G (m.read a.P_test) (m.read a.Pi) (m.read a.Ps) z.m_p z.emhd_params
              z.gam z.dt z.j z.i).2 ∧
    ∀ ip, 0 ≤ ip → ip < z.nfvar → ip ≠ z.m_u.Q → ip ≠ z.m_u.DP →
      (calc_residual F z a m).read a.residual ip
        = fluxbal F z (m.read a.P_test) (m.read a.Ui) (m.read a.dudt_explicit) ip := by
  rw [calc_residual_eq F z a m h, Mem.fill_same]
  simp only [residual_value, hQ, if_true]
  refine ⟨?_, ?_, ?_⟩
  · simp [Function.update, hne, hq0, hq1]
  · simp [Function.update, hne, hne.symm, hd0, hd1]
  · intro ip h0 h1 h2 h3
    simp [Function.update, h0, h1, h2, h3]

theorem calc_residual_extended_witness :
    (calc_residual exPhysics exZoneEMHD exViews exMem).read 7 0 = -15 / 2 ∧
      (calc_residual exPhysics exZoneEMHD exViews exMem).read 7 1 = -11 / 2 := by
  have h := calc_residual_extended exPhysics exZoneEMHD exViews exMem (by decide)
    (by decide) (by decide) (by decide) (by decide) (by decide) (by decide)
  constructor
  · rw [show (7 : Local) = exViews.residual from rfl,
      show (0 : Int) = exZoneEMHD.m_u.Q from rfl, h.1]
    norm_num [fluxbal, U_test, exPhysics, exMem, exViews, exZoneEMHD]
  · rw [show (7 : Local) = exViews.residual from rfl,
      show (1 : Int) = exZoneEMHD.m_u.DP from rfl, h.2.1]
    norm_num [fluxbal, U_test, exPhysics, exMem, exViews, exZoneEMHD]

/-- Claim C6, as stated, fails: `calc_residual` hands its `tmp` argument to `Flux::p_to_u`
as the output view, so after the call `tmp` holds `U_test`, not what it held before. -/
theorem calc_residual_writes_tmp : ¬ NoSideEffects exPhysics exZoneIdeal exViews exMem := by
  intro h
  have h6 := h.1 exViews.tmp (by simp)
  have h7 := congrFun h6 0
  rw [calc_residual_eq _ _ _ _ (by decide), Mem.fill_other _ _ (by decide), Mem.fill_same] at h7
  norm_num [U_test, exPhysics, exMem, exViews, exZoneIdeal] at h7

/-- Claim C6, amended: `calc_residual` leaves every view other than `tmp` and `residual` as
it was (in particular `P_test`, `Pi`, `Ui`, `Ps`, `dudt_explicit`, `dUi`), leaves `U_test`
in `tmp`, and leaves `residual` unchanged at every index from `nfvar` on that is not one of
the two extended-model slots of a present extended model. -/
theorem calc_residual_frame (F : Physics GRCoordinates EMHD_parameters)
    (z : ZoneArgs GRCoordinates EMHD_parameters) (a : ResidualViews) (m : Mem)
    (h : a.NoAlias) :
    (∀ v, v ≠ a.tmp → v ≠ a.residual → (calc_residual F z a m).read v = m.read v) ∧
    (∀ v ∈ [a.P_test, a.Pi, a.Ui, a.Ps, a.dudt_explicit, a.dUi],
      (calc_residual F z a m).read v = m.read v) ∧
    (calc_residual F z a m).read a.tmp = U_test F z (m.read a.P_test) ∧
    ∀ ip, z.nfvar ≤ ip → (z.m_p.Q < 0 ∨ (ip ≠ z.m_u.Q ∧ ip ≠ z.m_u.DP)) →
      (calc_residual F z a m).read a.residual ip = m.read a.residual ip := by
  have hframe : ∀ v, v ≠ a.tmp → v ≠ a.residual → (calc_residual F z a m).read v = m.read v := by
    intro v h1 h2
    rw [calc_residual_eq F z a m h, Mem.fill_other _ _ h2, Mem.fill_other _ _ h1]
  refine ⟨hframe, ?_, ?_, ?_⟩
  · intro v hv
    have := h.2 v hv
    exact hframe v this.1 this.2
  · rw [calc_residual_eq F z a m h, Mem.fill_other _ _ h.1, Mem.fill_same]
  · intro ip hip hslot
    rw [calc_residual_eq F z a m h, Mem.fill_same]
    have hr : ¬ (0 ≤ ip ∧ ip < z.nfvar) := by omega
    rcases hslot with hQ | ⟨h1, h2⟩
    · rw [residual_value_absent F z _ _ _ _ _ _ _ hQ]
      simp [hr]
    · by_cases hQ : z.m_p.Q ≥ 0
      · simp [residual_value, hQ, Function.update, h1, h2, hr]
      · rw [residual_value_absent F z _ _ _ _ _ _ _ (by omega)]
        simp [hr]

theorem calc_residual_frame_witness :
    (calc_residual exPhysics exZoneEMHD exViews exMem).read 0 = exMem.read 0 ∧
      (calc_residual exPhysics exZoneEMHD exViews exMem).read 6 3 = 7 ∧
      (calc_residual exPhysics exZoneEMHD exViews exMem).read 7 2 = 9 := by
  have h := calc_residual_frame exPhysics exZoneEMHD exViews exMem (by decide)
  refine ⟨h.1 0 (by decide) (by decide), ?_, ?_⟩
  · rw [show (6 : Local) = exViews.tmp from rfl, h.2.2.1]
    norm_num [U_test, exPhysics, exMem, exViews, exZoneEMHD]
  · rw [show (7 : Local) = exViews.residual from rfl,
      h.2.2.2 2 (by decide) (Or.inr ⟨by decide, by decide⟩)]
    norm_num [exMem, exViews]

/-! ### The numerical Jacobian -/

theorem residual_of_eq (F : Physics GRCoordinates EMHD_parameters)
    (z : ZoneArgs GRCoordinates EMHD_parameters) (P_test Pi Ui Ps dudt_explicit dUi : Vec) :
    residual_of F z P_test Pi Ui Ps dudt_explicit dUi
      = residual_value F z P_test Pi Ui Ps dudt_explicit dUi (fun _ => 0) := by
  unfold residual_of
  rw [calc_residual_eq F z _ _ (by decide)]
  rfl

/-- Rows `[0, nfvar)` of the residual do not depend on what `residual` held before. -/
theorem residual_value_old (F : Physics GRCoordinates EMHD_parameters)
    (z : ZoneArgs GRCoordinates EMHD_parameters) (P_test Pi Ui Ps dudt_explicit dUi : Vec)
    (old old' : Vec) (ip : Int) (h0 : 0 ≤ ip) (h1 : ip < z.nfvar) :
    residual_value F z P_test Pi Ui Ps dudt_explicit dUi old ip
      = residual_value F z P_test Pi Ui Ps dudt_explicit dUi old' ip := by
  unfold residual_value
  by_cases hQ : z.m_p.Q ≥ 0
  · simp only [hQ, if_true]
    by_cases e1 : ip = z.m_u.DP <;> by_cases e2 : ip = z.m_u.Q
    · subst e1; simp [Function.update, h0, h1, ← e2]
    · subst e1; simp [Function.update, h0, h1, e2]
    · subst e2; simp [Function.update, h0, h1, e1]
    · simp [Function.update, h0, h1, e1, e2]
  · simp [hQ, h0, h1]

theorem residual_value_congr (F : Physics GRCoordinates EMHD_parameters)
    (z : ZoneArgs GRCoordinates EMHD_parameters) (nvar : Int) (hF : F.ReadsOnly z nvar)
    (hnf : z.nfvar ≤ nvar) (X X' Pi Ui Ps dudt_explicit dUi old : Vec)
    (hX : ∀ ip, 0 ≤ ip → ip < nvar → X ip = X' ip) (ip : Int) (h0 : 0 ≤ ip)
    (h1 : ip < z.nfvar) :
    residual_value F z X Pi Ui Ps dudt_explicit dUi old ip
      = residual_value F z X' Pi Ui Ps dudt_explicit dUi old ip := by
  obtain ⟨e1, e2, e3⟩ := hF X X' hX
  have e1' := e1 ip h0 (by omega)
  unfold residual_value
  by_cases hQ : z.m_p.Q ≥ 0
  · simp only [hQ, if_true, e2, e3]
    by_cases c1 : ip = z.m_u.DP <;> by_cases c2 : ip = z.m_u.Q
    · subst c1; simp [Function.update, h0, h1, ← c2, fluxbal, U_test, e1']
    · subst c1; simp [Function.update, h0, h1, c2, fluxbal, U_test, e1']
    · subst c2; simp [Function.update, h0, h1, c1, fluxbal, U_test, e1']
    · simp [Function.update, h0, h1, c1, c2, fluxbal, U_test, e1']
  · simp [hQ, h0, h1, fluxbal, U_test, e1']

theorem jacobianViews_distinct {a : JacobianViews} (h : a.NoAlias) :
    (a.tmp1 ≠ a.tmp2 ∧ a.tmp1 ≠ a.tmp3 ∧ a.tmp1 ≠ a.residual ∧ a.tmp2 ≠ a.tmp3 ∧
      a.tmp2 ≠ a.residual ∧ a.tmp3 ≠ a.residual) ∧
    (a.P ≠ a.tmp1 ∧ a.P ≠ a.tmp2 ∧ a.P ≠ a.tmp3 ∧ a.P ≠ a.residual) ∧
    (a.Pi ≠ a.tmp1 ∧ a.Pi ≠ a.tmp2 ∧ a.Pi ≠ a.tmp3 ∧ a.Pi ≠ a.residual) ∧
    (a.Ui ≠ a.tmp1 ∧ a.Ui ≠ a.tmp2 ∧ a.Ui ≠ a.tmp3 ∧ a.Ui ≠ a.residual) ∧
    (a.Ps ≠ a.tmp1 ∧ a.Ps ≠ a.tmp2 ∧ a.Ps ≠ a.tmp3 ∧ a.Ps ≠ a.residual) ∧
    (a.dudt_explicit ≠ a.tmp1 ∧ a.dudt_explicit ≠ a.tmp2 ∧ a.dudt_explicit ≠ a.tmp3 ∧
      a.dudt_explicit ≠ a.residual) ∧
    (a.dUi ≠ a.tmp1 ∧ a.dUi ≠ a.tmp2 ∧ a.dUi ≠ a.tmp3 ∧ a.dUi ≠ a.residual) := by
  simp only [JacobianViews.NoAlias, List.nodup_cons, List.mem_cons, List.mem_singleton,
    List.not_mem_nil, not_or, forall_eq_or_imp, forall_eq, or_false, List.nodup_nil,
    not_false_eq_true, and_true, false_implies, implies_true] at h
  tauto

theorem noAlias_baseline {a : JacobianViews} (h : a.NoAlias) :
    a.baseline.NoAlias := by
  have h' := jacobianViews_distinct h
  simp only [ResidualViews.NoAlias, JacobianViews.baseline, List.mem_cons, List.mem_singleton,
    List.not_mem_nil, forall_eq_or_imp, forall_eq, or_false, false_implies, implies_true,
    and_true]
  tauto

theorem noAlias_perturbed {a : JacobianViews} (h : a.NoAlias) :
    a.perturbed.NoAlias := by
  have h' := jacobianViews_distinct h
  simp only [ResidualViews.NoAlias, JacobianViews.perturbed, List.mem_cons, List.mem_singleton,
    List.not_mem_nil, forall_eq_or_imp, forall_eq, or_false, false_implies, implies_true,
    and_true]
  tauto

theorem forLoop_setJac (col : Int) (g : Int → Mem → ℚ) (n : Nat) (s : State) :
    forLoop n (fun row s => s.setJac row col (g row s.mem)) s
      = { mem := s.mem
          jacobian := fun r c =>
            if (0 ≤ r ∧ r < (n : Int)) ∧ c = col then g r s.mem else s.jacobian r c } := by
  induction n with
  | zero =>
    have : ∀ r : Int, ¬ (0 ≤ r ∧ r < 0) := by intro r; omega
    cases s
    simp [forLoop, this]
  | succ k ih =>
    rw [forLoop, ih]
    simp only [State.setJac, State.mk.injEq, true_and]
    funext r c
    by_cases h1 : r = (k : Int) <;> by_cases h2 : c = col
    · subst h1; subst h2; simp
    · simp [h2]
    · have : (0 ≤ r ∧ r < ((k + 1 : Nat) : Int)) ↔ (0 ≤ r ∧ r < (k : Int)) := by
        push_cast; omega
      simp only [h1, h2, this, false_and, if_false]
    · simp [h2]

/-- The state left by one pass of the `col` loop. -/
theorem jacobian_column_eq (F : Physics GRCoordinates EMHD_parameters)
    (z : ZoneArgs GRCoordinates EMHD_parameters) (a : JacobianViews) (jac_delta SMALL : ℚ)
    (h : a.NoAlias) (col : Int) (s : State) :
    jacobian_column F z a jac_delta SMALL col s
      = { mem :=
            (((s.mem.fill a.tmp1
                (Function.update (s.mem.read a.tmp1) col (P_delta_at jac_delta (s.mem.read a.P col)))).fill
              a.tmp3
                (U_test F z
                  (Function.update (s.mem.read a.tmp1) col (P_delta_at jac_delta (s.mem.read a.P col))))).fill
              a.tmp2
                (residual_value F z
                  (Function.update (s.mem.read a.tmp1) col (P_delta_at jac_delta (s.mem.read a.P col)))
                  (s.mem.read a.Pi) (s.mem.read a.Ui) (s.mem.read a.Ps) (s.mem.read a.dudt_explicit) (s.mem.read a.dUi)
                  (s.mem.read a.tmp2))).fill
              a.tmp1 (Function.update (s.mem.read a.tmp1) col (s.mem.read a.P col))
          jacobian := fun r c =>
            if (0 ≤ r ∧ r < z.nfvar) ∧ c = col then
              (residual_value F z
                  (Function.update (s.mem.read a.tmp1) col (P_delta_at jac_delta (s.mem.read a.P col)))
                  (s.mem.read a.Pi) (s.mem.read a.Ui) (s.mem.read a.Ps) (s.mem.read a.dudt_explicit) (s.mem.read a.dUi)
                  (s.mem.read a.tmp2) r - s.mem.read a.residual r)
                / denominator jac_delta SMALL (s.mem.read a.P col)
            else s.jacobian r c } := by
  obtain ⟨⟨t12, t13, t1r, t23, t2r, t3r⟩, ⟨p1, p2, p3, pr⟩, ⟨pi1, pi2, pi3, pir⟩,
    ⟨ui1, ui2, ui3, uir⟩, ⟨ps1, ps2, ps3, psr⟩, ⟨du1, du2, du3, dur⟩,
    ⟨dui1, dui2, dui3, duir⟩⟩ := jacobianViews_distinct h
  have hm : (if |s.mem.read a.P col| < 0.5 * jac_delta then
        s.mem.set a.tmp1 col (s.mem.read a.P col + jac_delta)
      else s.mem.set a.tmp1 col ((1 + jac_delta) * s.mem.read a.P col))
      = s.mem.fill a.tmp1
          (Function.update (s.mem.read a.tmp1) col (P_delta_at jac_delta (s.mem.read a.P col))) := by
    unfold P_delta_at
    split_ifs <;> rw [Mem.set_eq_fill]
  have hn : ∀ r : Int, (0 ≤ r ∧ r < ((z.nfvar.toNat : Nat) : Int)) ↔ (0 ≤ r ∧ r < z.nfvar) := by
    intro r; omega
  unfold jacobian_column
  simp only []
  rw [hm, calc_residual_eq F z _ _ (noAlias_perturbed h)]
  rw [forLoop_setJac col (fun row m =>
    (m.read a.tmp2 row - m.read a.residual row) / (m.read a.tmp1 col - m.read a.P col + SMALL))]
  simp only [JacobianViews.perturbed, Mem.set_eq_fill, Mem.fill_same,
    Mem.fill_other _ _ t12, Mem.fill_other _ _ t13, Mem.fill_other _ _ t1r,
    Mem.fill_other _ _ t23, Mem.fill_other _ _ t2r, Mem.fill_other _ _ t3r,
    Mem.fill_other _ _ t12.symm, Mem.fill_other _ _ t13.symm, Mem.fill_other _ _ t1r.symm,
    Mem.fill_other _ _ t23.symm, Mem.fill_other _ _ t2r.symm, Mem.fill_other _ _ t3r.symm,
    Mem.fill_other _ _ p1, Mem.fill_other _ _ p2, Mem.fill_other _ _ p3,
    Mem.fill_other _ _ pi1, Mem.fill_other _ _ pi2, Mem.fill_other _ _ pi3,
    Mem.fill_other _ _ ui1, Mem.fill_other _ _ ui2, Mem.fill_other _ _ ui3,
    Mem.fill_other _ _ ps1, Mem.fill_other _ _ ps2, Mem.fill_other _ _ ps3,
    Mem.fill_other _ _ du1, Mem.fill_other _ _ du2, Mem.fill_other _ _ du3,
    Mem.fill_other _ _ dui1, Mem.fill_other _ _ dui2, Mem.fill_other _ _ dui3,
    Function.update_same, Function.update_idem, hn, denominator]

/-- Invariant of the `col` loop of `calc_jacobian`, after `k` passes started in `s1`:
only the scratch views changed, `P_delta` holds `P` in the columns visited, and the
columns visited hold the forward differences. -/
theorem column_loop_inv (F : Physics GRCoordinates EMHD_parameters)
    (z : ZoneArgs GRCoordinates EMHD_parameters) (a : JacobianViews) (jac_delta SMALL : ℚ)
    (h : a.NoAlias) (s1 : State) (k : Nat) :
    (∀ v, v ≠ a.tmp1 → v ≠ a.tmp2 → v ≠ a.tmp3 →
      (forLoop k (jacobian_column F z a jac_delta SMALL) s1).mem.read v = s1.mem.read v) ∧
    ((forLoop k (jacobian_column F z a jac_delta SMALL) s1).mem.read a.tmp1
      = fun ip => if 0 ≤ ip ∧ ip < (k : Int) then s1.mem.read a.P ip else s1.mem.read a.tmp1 ip) ∧
    (∀ r c, 0 ≤ r → r < z.nfvar → 0 ≤ c → c < (k : Int) →
      (forLoop k (jacobian_column F z a jac_delta SMALL) s1).jacobian r c
        = (residual_value F z
              (Function.update
                (fun ip => if 0 ≤ ip ∧ ip < c then s1.mem.read a.P ip else s1.mem.read a.tmp1 ip) c
                (P_delta_at jac_delta (s1.mem.read a.P c)))
              (s1.mem.read a.Pi) (s1.mem.read a.Ui) (s1.mem.read a.Ps) (s1.mem.read a.dudt_explicit)
              (s1.mem.read a.dUi) (fun _ => 0) r - s1.mem.read a.residual r)
            / denominator jac_delta SMALL (s1.mem.read a.P c)) ∧
    (∀ r c, ¬ ((0 ≤ r ∧ r < z.nfvar) ∧ 0 ≤ c ∧ c < (k : Int)) →
      (forLoop k (jacobian_column F z a jac_delta SMALL) s1).jacobian r c
        = s1.jacobian r c) := by
  obtain ⟨⟨t12, t13, t1r, t23, t2r, t3r⟩, ⟨p1, p2, p3, pr⟩, ⟨pi1, pi2, pi3, pir⟩,
    ⟨ui1, ui2, ui3, uir⟩, ⟨ps1, ps2, ps3, psr⟩, ⟨du1, du2, du3, dur⟩,
    ⟨dui1, dui2, dui3, duir⟩⟩ := jacobianViews_distinct h
  induction k with
  | zero =>
    refine ⟨fun v _ _ _ => rfl, ?_, ?_, fun r c _ => rfl⟩
    · funext ip
      have : ¬ (0 ≤ ip ∧ ip < ((0 : Nat) : Int)) := by omega
      simp only [forLoop, this, if_false]
    · intro r c _ _ h0 h1
      exact absurd h1 (by omega)
  | succ k ih =>
    obtain ⟨ia, ib, ic, id⟩ := ih
    rw [forLoop, jacobian_column_eq F z a jac_delta SMALL h]
    simp only []
    rw [ia a.P p1 p2 p3, ia a.Pi pi1 pi2 pi3, ia a.Ui ui1 ui2 ui3, ia a.Ps ps1 ps2 ps3,
      ia a.dudt_explicit du1 du2 du3, ia a.dUi dui1 dui2 dui3,
      ia a.residual t1r.symm t2r.symm t3r.symm, ib]
    refine ⟨?_, ?_, ?_, ?_⟩
    · intro v h1 h2 h3
      rw [Mem.fill_other _ _ h1, Mem.fill_other _ _ h2, Mem.fill_other _ _ h3,
        Mem.fill_other _ _ h1]
      exact ia v h1 h2 h3
    · rw [Mem.fill_same]
      funext ip
      by_cases e : ip = (k : Int)
      · subst e; simp
      · have : (0 ≤ ip ∧ ip < ((k + 1 : Nat) : Int)) ↔ (0 ≤ ip ∧ ip < (k : Int)) := by
          push_cast; omega
        simp only [Function.update_noteq e, this]
    · intro r c hr0 hr1 hc0 hc1
      by_cases e : c = (k : Int)
      · subst e
        simp only [hr0, hr1, and_self, if_true]
        rw [residual_value_old F z _ _ _ _ _ _ _ (fun _ => 0) r hr0 hr1]
      · have hc : c < (k : Int) := by push_cast at hc1; omega
        simp only [e, and_false, if_false]
        exact ic r c hr0 hr1 hc0 hc
    · intro r c hrc
      have e : ¬ ((0 ≤ r ∧ r < z.nfvar) ∧ c = (k : Int)) := by
        rintro ⟨hr, rfl⟩
        exact hrc ⟨hr, by push_cast; omega⟩
      simp only [e, if_false]
      apply id
      rintro ⟨hr, hc0, hc1⟩
      exact hrc ⟨hr, hc0, by push_cast; omega⟩

/-- The state in which `calc_jacobian` enters its `col` loop. -/
theorem calc_jacobian_eq (F : Physics GRCoordinates EMHD_parameters)
    (z : ZoneArgs GRCoordinates EMHD_parameters) (a : JacobianViews) (nvar : Int)
    (jac_delta SMALL : ℚ) (h : a.NoAlias) (s : State) :
    calc_jacobian F z a nvar jac_delta SMALL s
      = forLoop z.nfvar.toNat (jacobian_column F z a jac_delta SMALL)
          { mem :=
              ((s.mem.fill a.tmp3 (U_test F z (s.mem.read a.P))).fill a.residual
                (residual_value F z (s.mem.read a.P) (s.mem.read a.Pi) (s.mem.read a.Ui) (s.mem.read a.Ps)
                  (s.mem.read a.dudt_explicit) (s.mem.read a.dUi) (s.mem.read a.residual))).fill a.tmp1
                (fun iq => if 0 ≤ iq ∧ iq < nvar then s.mem.read a.P iq else s.mem.read a.tmp1 iq)
            jacobian := s.jacobian } := by
  obtain ⟨⟨t12, t13, t1r, t23, t2r, t3r⟩, ⟨p1, p2, p3, pr⟩, -⟩ := jacobianViews_distinct h
  have hn : ∀ r : Int, (0 ≤ r ∧ r < ((nvar.toNat : Nat) : Int)) ↔ (0 ≤ r ∧ r < nvar) := by
    intro r; omega
  unfold calc_jacobian PLOOP
  simp only []
  rw [calc_residual_eq F z _ _ (noAlias_baseline h),
    forLoop_set a.tmp1 (fun ip m => m.read a.P ip)
      (by intro ip m m' hm; simp only [hm a.P p1])]
  simp only [JacobianViews.baseline, Mem.fill_other _ _ p3, Mem.fill_other _ _ pr,
    Mem.fill_other _ _ t13, Mem.fill_other _ _ t1r, hn]

/-- The entries of the Jacobian computed by `calc_jacobian`, in terms of the residual `R`
of a stand-alone call of `calc_residual`. -/
theorem calc_jacobian_entry (F : Physics GRCoordinates EMHD_parameters)
    (z : ZoneArgs GRCoordinates EMHD_parameters) (a : JacobianViews) (nvar : Int)
    (jac_delta SMALL : ℚ) (h : a.NoAlias) (hF : F.ReadsOnly z nvar) (hnf : z.nfvar ≤ nvar)
    (s : State) (row col : Int) (hr0 : 0 ≤ row) (hr1 : row < z.nfvar) (hc0 : 0 ≤ col)
    (hc1 : col < z.nfvar) :
    (calc_jacobian F z a nvar jac_delta SMALL s).jacobian row col
      = (residual_of F z
            (Function.update (s.mem.read a.P) col (P_delta_at jac_delta (s.mem.read a.P col)))
            (s.mem.read a.Pi) (s.mem.read a.Ui) (s.mem.read a.Ps) (s.mem.read a.dudt_explicit) (s.mem.read a.dUi) row
          - residual_of F z (s.mem.read a.P) (s.mem.read a.Pi) (s.mem.read a.Ui) (s.mem.read a.Ps)
              (s.mem.read a.dudt_explicit) (s.mem.read a.dUi) row)
        / denominator jac_delta SMALL (s.mem.read a.P col) := by
  obtain ⟨⟨t12, t13, t1r, t23, t2r, t3r⟩, ⟨p1, p2, p3, pr⟩, ⟨pi1, pi2, pi3, pir⟩,
    ⟨ui1, ui2, ui3, uir⟩, ⟨ps1, ps2, ps3, psr⟩, ⟨du1, du2, du3, dur⟩,
    ⟨dui1, dui2, dui3, duir⟩⟩ := jacobianViews_distinct h
  rw [calc_jacobian_eq F z a nvar jac_delta SMALL h s]
  have hc : col < ((z.nfvar.toNat : Nat) : Int) := by omega
  rw [(column_loop_inv F z a jac_delta SMALL h _ z.nfvar.toNat).2.2.1 row col hr0 hr1 hc0 hc]
  simp only [Mem.fill_same, Mem.fill_other _ _ p1, Mem.fill_other _ _ pr,
    Mem.fill_other _ _ p3, Mem.fill_other _ _ pi1, Mem.fill_other _ _ pir,
    Mem.fill_other _ _ pi3, Mem.fill_other _ _ ui1, Mem.fill_other _ _ uir,
    Mem.fill_other _ _ ui3, Mem.fill_other _ _ ps1, Mem.fill_other _ _ psr,
    Mem.fill_other _ _ ps3, Mem.fill_other _ _ du1, Mem.fill_other _ _ dur,
    Mem.fill_other _ _ du3, Mem.fill_other _ _ dui1, Mem.fill_other _ _ duir,
    Mem.fill_other _ _ dui3, Mem.fill_other _ _ t1r.symm, residual_of_eq]
  rw [residual_value_old F z (s.mem.read a.P) _ _ _ _ _ (s.mem.read a.residual) (fun _ => 0) row hr0 hr1]
  congr 2
  apply residual_value_congr F z nvar hF hnf _ _ _ _ _ _ _ _ _ row hr0 hr1
  intro ip h0 h1
  by_cases e : ip = col
  · subst e; simp
  · simp only [Function.update_noteq e, h0, h1, and_self, if_true, true_and, ite_self]

theorem P_delta_at_eq (jac_delta x : ℚ) : P_delta_at jac_delta x = x + h_step jac_delta x := by
  have e : (0.5 : ℚ) * jac_delta = jac_delta / 2 := by norm_num; ring
  unfold P_delta_at h_step
  rw [e]
  split_ifs <;> ring

theorem denominator_eq (jac_delta SMALL x : ℚ) :
    denominator jac_delta SMALL x = h_step jac_delta x + SMALL := by
  rw [denominator, P_delta_at_eq]
  ring

theorem exPhysics_readsOnly (z : ZoneArgs Unit Unit) : exPhysics.ReadsOnly z 3 := by
  intro X X' hX
  have e0 := hX 0 (by decide) (by decide)
  have e1 := hX 1 (by decide) (by decide)
  refine ⟨fun ip h0 h1 => ?_, ?_, fun Pi Ps => ?_⟩
  · simp only [exPhysics, hX ip h0 h1]
  · simp only [exPhysics, e0, e1]
  · simp only [exPhysics, e0, e1]

/-- Claim C3: for `row, col < nfvar`, `calc_jacobian` sets `jacobian[row][col]` to the forward
difference `(R(P + h e_col)[row] - R(P)[row]) / (h + SMALL)` of the residual `R` of
`calc_residual`, with `h = jac_delta` if `|P[col]| < jac_delta / 2` and
`h = jac_delta * P[col]` otherwise. -/
theorem calc_jacobian_forward_difference (F : Physics GRCoordinates EMHD_parameters)
    (z : ZoneArgs GRCoordinates EMHD_parameters) (a : JacobianViews) (nvar : Int)
    (jac_delta SMALL : ℚ) (s : State) (h : a.NoAlias) (hF : F.ReadsOnly z nvar)
    (hnf : z.nfvar ≤ nvar) (row col : Int) (hr0 : 0 ≤ row) (hr1 : row < z.nfvar)
    (hc0 : 0 ≤ col) (hc1 : col < z.nfvar) :
    (calc_jacobian F z a nvar jac_delta SMALL s).jacobian row col
      = (residual_of F z
            (Function.update (s.mem.read a.P) col (s.mem.read a.P col + h_step jac_delta (s.mem.read a.P col)))
            (s.mem.read a.Pi) (s.mem.read a.Ui) (s.mem.read a.Ps) (s.mem.read a.dudt_explicit) (s.mem.read a.dUi) row
          - residual_of F z (s.mem.read a.P) (s.mem.read a.Pi) (s.mem.read a.Ui) (s.mem.read a.Ps)
              (s.mem.read a.dudt_explicit) (s.mem.read a.dUi) row)
        / (h_step jac_delta (s.mem.read a.P col) + SMALL) := by
  rw [calc_jacobian_entry F z a nvar jac_delta SMALL h hF hnf s row col hr0 hr1 hc0 hc1,
    P_delta_at_eq, denominator_eq]

theorem calc_jacobian_forward_difference_witness :
    (calc_jacobian exPhysics exZoneIdeal exJViews 3 1 1 exState).jacobian 0 0 = 2 ∧
      (calc_jacobian exPhysics exZoneIdeal exJViews 3 1 1 exState).jacobian 0 1 = 0 ∧
      (calc_jacobian exPhysics exZoneIdeal exJViews 3 1 1 exState).jacobian 1 1 = 2 := by
  have h := calc_jacobian_forward_difference exPhysics exZoneIdeal exJViews 3 1 1 exState
    (by decide) (exPhysics_readsOnly _) (by decide)
  refine ⟨?_, ?_, ?_⟩
  · rw [h 0 0 (by decide) (by decide) (by decide) (by decide)]
    norm_num [residual_of_eq, residual_value, fluxbal, U_test, exPhysics, exMem, exJViews,
      exZoneIdeal, exState, h_step, Function.update]
  · rw [h 0 1 (by decide) (by decide) (by decide) (by decide)]
    norm_num [residual_of_eq, residual_value, fluxbal, U_test, exPhysics, exMem, exJViews,
      exZoneIdeal, exState, h_step, Function.update]
  · rw [h 1 1 (by decide) (by decide) (by decide) (by decide)]
    norm_num [residual_of_eq, residual_value, fluxbal, U_test, exPhysics, exMem, exJViews,
      exZoneIdeal, exState, h_step, Function.update]

/-- Claim C5, as stated, fails: with `jac_delta = 2^-30`, `SMALL = 2^-61` and the trial value
`P[col] = -2^-31`, the test `abs(P) < 0.5 * jac_delta` is false, the relative step gives
`P_delta[col] = (1 + 2^-30) * (-2^-31) = -2^-31 - 2^-61`, and the divisor
`P_delta[col] - P[col] + SMALL = -2^-61 + 2^-61` is zero.  (All these values are dyadic: the
same steps are exact in double precision.) -/
theorem denominator_zero :
    (0 : ℚ) < 1 / 2 ^ 30 ∧ (0 : ℚ) < 1 / 2 ^ 61 ∧
      P_delta_at (1 / 2 ^ 30) (-(1 / 2 ^ 31)) = -(1 / 2 ^ 31) - 1 / 2 ^ 61 ∧
      denominator (1 / 2 ^ 30) (1 / 2 ^ 61) (-(1 / 2 ^ 31)) = 0 := by
  have hx : ¬ |(-(1 / 2 ^ 31) : ℚ)| < 0.5 * (1 / 2 ^ 30) := by
    rw [abs_neg, abs_of_pos (by norm_num)]
    norm_num
  refine ⟨by norm_num, by norm_num, ?_, ?_⟩
  · rw [P_delta_at, if_neg hx]
    norm_num
  · rw [denominator, P_delta_at, if_neg hx]
    norm_num

/-- Claim C5, amended: for `jac_delta > 0` and `SMALL > 0`, the divisor
`P_delta[col] - P[col] + SMALL` is positive, hence nonzero, whenever `P[col] >= 0` or
`|P[col]| < jac_delta / 2` (the absolute step).  Nothing is said of a negative `P[col]`
that takes the relative step. -/
theorem denominator_pos (jac_delta SMALL x : ℚ) (hj : 0 < jac_delta) (hs : 0 < SMALL)
    (hx : 0 ≤ x ∨ |x| < jac_delta / 2) : 0 < denominator jac_delta SMALL x := by
  rw [denominator_eq, h_step]
  split_ifs with h
  · linarith
  · rcases hx with h0 | h1
    · nlinarith
    · exact absurd h1 h

theorem denominator_pos_witness :
    0 < denominator (1 / 2 ^ 30) (1 / 2 ^ 61) 3 ∧
      0 < denominator (1 / 2 ^ 30) (1 / 2 ^ 61) (-(1 / 2 ^ 32)) := by
  refine ⟨denominator_pos _ _ 3 (by norm_num) (by norm_num) (Or.inl (by norm_num)),
    denominator_pos _ _ _ (by norm_num) (by norm_num) (Or.inr ?_)⟩
  rw [abs_neg, abs_of_pos (by norm_num)]
  norm_num

/-- The residual output of `calc_jacobian` is the one of its baseline call
`calc_residual(G, P, ..., tmp3, ..., residual)`. -/
theorem calc_jacobian_residual (F : Physics GRCoordinates EMHD_parameters)
    (z : ZoneArgs GRCoordinates EMHD_parameters) (a : JacobianViews) (nvar : Int)
    (jac_delta SMALL : ℚ) (h : a.NoAlias) (s : State) :
    (calc_jacobian F z a nvar jac_delta SMALL s).mem.read a.residual
      = residual_value F z (s.mem.read a.P) (s.mem.read a.Pi) (s.mem.read a.Ui)
          (s.mem.read a.Ps) (s.mem.read a.dudt_explicit) (s.mem.read a.dUi)
          (s.mem.read a.residual) := by
  obtain ⟨⟨t12, t13, t1r, t23, t2r, t3r⟩, -⟩ := jacobianViews_distinct h
  rw [calc_jacobian_eq F z a nvar jac_delta SMALL h s,
    (column_loop_inv F z a jac_delta SMALL h _ z.nfvar.toNat).1 a.residual t1r.symm t2r.symm
      t3r.symm]
  simp only [Mem.fill_other _ _ t1r.symm, Mem.fill_same]

/-- Claim C7: two calls of `calc_jacobian` with the same arguments, whose memories agree on
the read-only views `P`, `Pi`, `Ui`, `Ps`, `dudt_explicit`, `dUi` but hold anything in the
scratch views `tmp1`, `tmp2`, `tmp3` and in the outputs `residual`, `jacobian`, leave the
same `residual[0..nfvar)` and the same `jacobian[0..nfvar)[0..nfvar)`. -/
theorem calc_jacobian_deterministic (F : Physics GRCoordinates EMHD_parameters)
    (z : ZoneArgs GRCoordinates EMHD_parameters) (a : JacobianViews) (nvar : Int)
    (jac_delta SMALL : ℚ) (s s' : State) (h : a.NoAlias) (hF : F.ReadsOnly z nvar)
    (hnf : z.nfvar ≤ nvar)
    (hin : ∀ v ∈ [a.P, a.Pi, a.Ui, a.Ps, a.dudt_explicit, a.dUi], s.mem.read v = s'.mem.read v) :
    (∀ ip, 0 ≤ ip → ip < z.nfvar →
      (calc_jacobian F z a nvar jac_delta SMALL s).mem.read a.residual ip
        = (calc_jacobian F z a nvar jac_delta SMALL s').mem.read a.residual ip) ∧
    ∀ row col, 0 ≤ row → row < z.nfvar → 0 ≤ col → col < z.nfvar →
      (calc_jacobian F z a nvar jac_delta SMALL s).jacobian row col
        = (calc_jacobian F z a nvar jac_delta SMALL s').jacobian row col := by
  have e1 := hin a.P (by simp)
  have e2 := hin a.Pi (by simp)
  have e3 := hin a.Ui (by simp)
  have e4 := hin a.Ps (by simp)
  have e5 := hin a.dudt_explicit (by simp)
  have e6 := hin a.dUi (by simp)
  constructor
  · intro ip h0 h1
    rw [calc_jacobian_residual F z a nvar jac_delta SMALL h s,
      calc_jacobian_residual F z a nvar jac_delta SMALL h s', e1, e2, e3, e4, e5, e6]
    exact residual_value_old F z _ _ _ _ _ _ _ _ ip h0 h1
  · intro row col hr0 hr1 hc0 hc1
    rw [calc_jacobian_entry F z a nvar jac_delta SMALL h hF hnf s row col hr0 hr1 hc0 hc1,
      calc_jacobian_entry F z a nvar jac_delta SMALL h hF hnf s' row col hr0 hr1 hc0 hc1,
      e1, e2, e3, e4, e5, e6]

theorem calc_jacobian_deterministic_witness :
    (calc_jacobian exPhysics exZoneEMHD exJViews 3 1 1 exState).mem.read 9 0
        = (calc_jacobian exPhysics exZoneEMHD exJViews 3 1 1 exStateJunk).mem.read 9 0 ∧
      (calc_jacobian exPhysics exZoneEMHD exJViews 3 1 1 exState).jacobian 1 0
        = (calc_jacobian exPhysics exZoneEMHD exJViews 3 1 1 exStateJunk).jacobian 1 0 := by
  have h := calc_jacobian_deterministic exPhysics exZoneEMHD exJViews 3 1 1 exState
    exStateJunk (by decide) (exPhysics_readsOnly _) (by decide)
    (by
      intro v hv
      have hv' : v < 6 := by
        simp only [exJViews, List.mem_cons, List.mem_singleton, List.not_mem_nil,
          or_false] at hv
        rcases hv with rfl | rfl | rfl | rfl | rfl | rfl <;> decide
      funext ip
      simp [exState, exStateJunk, exMem, hv'])
  exact ⟨h.1 0 (by decide) (by decide),
    h.2 1 0 (by decide) (by decide) (by decide) (by decide)⟩

/-! ### Affine residuals -/

theorem affine_difference (F : Physics GRCoordinates EMHD_parameters)
    (z : ZoneArgs GRCoordinates EMHD_parameters) (Pi Ui Ps dudt_explicit dUi : Vec)
    (A : Int → Int → ℚ) (b : Vec) (hA : AffineResidual F z Pi Ui Ps dudt_explicit dUi A b)
    (P : Vec) (v : ℚ) (row col : Int) (hr0 : 0 ≤ row) (hr1 : row < z.nfvar) (hc0 : 0 ≤ col)
    (hc1 : col < z.nfvar) :
    residual_of F z (Function.update P col v) Pi Ui Ps dudt_explicit dUi row
        - residual_of F z P Pi Ui Ps dudt_explicit dUi row
      = A row col * (v - P col) := by
  rw [hA _ row hr0 hr1, hA _ row hr0 hr1]
  have hcol : ((col.toNat : Nat) : Int) = col := Int.toNat_of_nonneg hc0
  have e : (∑ c in Finset.range z.nfvar.toNat, A row (c : Int) * Function.update P col v (c : Int))
      - b row - ((∑ c in Finset.range z.nfvar.toNat, A row (c : Int) * P (c : Int)) - b row)
      = ∑ c in Finset.range z.nfvar.toNat,
          A row (c : Int) * (Function.update P col v (c : Int) - P (c : Int)) := by
    rw [sub_sub_sub_cancel_right, ← Finset.sum_sub_distrib]
    exact Finset.sum_congr rfl (fun c _ => by ring)
  rw [e, Finset.sum_eq_single col.toNat]
  · rw [hcol, Function.update_same]
  · intro c _ hc
    have : (c : Int) ≠ col := by omega
    rw [Function.update_noteq this, sub_self, mul_zero]
  · intro hn
    exact absurd (Finset.mem_range.mpr (by omega)) hn

/-- In exact arithmetic, for an affine residual, the entry `(row, col)` of the numerical
Jacobian is `A[row][col] * h / (h + SMALL)` with the step `h` of column `col`.  (What the
code computes in double precision differs from it by rounding, which the difference of the
two residuals can amplify without bound relative to `h`.) -/
theorem calc_jacobian_affine (F : Physics GRCoordinates EMHD_parameters)
    (z : ZoneArgs GRCoordinates EMHD_parameters) (a : JacobianViews) (nvar : Int)
    (jac_delta SMALL : ℚ) (s : State) (A : Int → Int → ℚ) (b : Vec) (h : a.NoAlias)
    (hF : F.ReadsOnly z nvar) (hnf : z.nfvar ≤ nvar)
    (hA : AffineResidual F z (s.mem.read a.Pi) (s.mem.read a.Ui) (s.mem.read a.Ps)
      (s.mem.read a.dudt_explicit) (s.mem.read a.dUi) A b)
    (row col : Int) (hr0 : 0 ≤ row) (hr1 : row < z.nfvar) (hc0 : 0 ≤ col)
    (hc1 : col < z.nfvar) :
    (calc_jacobian F z a nvar jac_delta SMALL s).jacobian row col
      = A row col * h_step jac_delta (s.mem.read a.P col)
          / (h_step jac_delta (s.mem.read a.P col) + SMALL) := by
  rw [calc_jacobian_entry F z a nvar jac_delta SMALL h hF hnf s row col hr0 hr1 hc0 hc1,
    affine_difference F z _ _ _ _ _ A b hA _ _ row col hr0 hr1 hc0 hc1, P_delta_at_eq,
    denominator_eq, add_sub_cancel_left]

/-! ### The working copy `P_delta` and the residual output -/

/-- The function `calc_jacobian` is its `col` loop run from `column_loop_entry`. -/
theorem calc_jacobian_loop (F : Physics GRCoordinates EMHD_parameters)
    (z : ZoneArgs GRCoordinates EMHD_parameters) (a : JacobianViews) (nvar : Int)
    (jac_delta SMALL : ℚ) (s : State) :
    calc_jacobian F z a nvar jac_delta SMALL s
      = forLoop z.nfvar.toNat (jacobian_column F z a jac_delta SMALL)
          (column_loop_entry F z a nvar s) := rfl

/-- In a pass of the `col` loop, the perturbed call of `calc_residual` runs on the memory
`perturb_column ... s.mem`; the row loop and the reset of `P_delta(col)` follow. -/
theorem jacobian_column_call (F : Physics GRCoordinates EMHD_parameters)
    (z : ZoneArgs GRCoordinates EMHD_parameters) (a : JacobianViews)
    (jac_delta SMALL : ℚ) (col : Int) (s : State) :
    jacobian_column F z a jac_delta SMALL col s
      = (fun s' : State => { s' with mem := s'.mem.set a.tmp1 col (s'.mem.read a.P col) })
          (forLoop z.nfvar.toNat
            (fun row s => s.setJac row col
              ((s.mem.read a.tmp2 row - s.mem.read a.residual row)
                / (s.mem.read a.tmp1 col - s.mem.read a.P col + SMALL)))
            { s with
              mem := (calc_residual F z a.perturbed (perturb_column a jac_delta col s.mem)) })
          := rfl

theorem perturb_column_eq (a : JacobianViews) (jac_delta : ℚ) (col : Int) (m : Mem) :
    perturb_column a jac_delta col m
      = m.fill a.tmp1
          (Function.update (m.read a.tmp1) col (P_delta_at jac_delta (m.read a.P col))) := by
  unfold perturb_column P_delta_at
  split_ifs <;> rw [Mem.set_eq_fill]

theorem column_loop_entry_mem (F : Physics GRCoordinates EMHD_parameters)
    (z : ZoneArgs GRCoordinates EMHD_parameters) (a : JacobianViews) (nvar : Int)
    (h : a.NoAlias) (s : State) :
    (column_loop_entry F z a nvar s).mem
      = ((s.mem.fill a.tmp3 (U_test F z (s.mem.read a.P))).fill a.residual
          (residual_value F z (s.mem.read a.P) (s.mem.read a.Pi) (s.mem.read a.Ui)
            (s.mem.read a.Ps) (s.mem.read a.dudt_explicit) (s.mem.read a.dUi)
            (s.mem.read a.residual))).fill a.tmp1
          (fun iq => if 0 ≤ iq ∧ iq < nvar then s.mem.read a.P iq else s.mem.read a.tmp1 iq) := by
  obtain ⟨⟨t12, t13, t1r, t23, t2r, t3r⟩, ⟨p1, p2, p3, pr⟩, -⟩ := jacobianViews_distinct h
  have hn : ∀ r : Int, (0 ≤ r ∧ r < ((nvar.toNat : Nat) : Int)) ↔ (0 ≤ r ∧ r < nvar) := by
    intro r; omega
  unfold column_loop_entry PLOOP
  simp only []
  rw [calc_residual_eq F z _ _ (noAlias_baseline h),
    forLoop_set a.tmp1 (fun ip m => m.read a.P ip)
      (by intro ip m m' hm; simp only [hm a.P p1])]
  simp only [JacobianViews.baseline, Mem.fill_other _ _ p3, Mem.fill_other _ _ pr,
    Mem.fill_other _ _ t13, Mem.fill_other _ _ t1r, hn]

/-- Claim C11: in every pass `col < nfvar` of the `col` loop of `calc_jacobian`, the trial
state handed to the perturbed call of `calc_residual` (the view `tmp1`) agrees with `P` on
all `nvar` slots except slot `col`, which holds the perturbed value; in particular slots
from `nfvar` on are never perturbed.  When `calc_jacobian` returns, `tmp1` equals `P` on
every one of the `nvar` slots, and `P` is unchanged. -/
theorem calc_jacobian_working_copy (F : Physics GRCoordinates EMHD_parameters)
    (z : ZoneArgs GRCoordinates EMHD_parameters) (a : JacobianViews) (nvar : Int)
    (jac_delta SMALL : ℚ) (s : State) (h : a.NoAlias) :
    (∀ col, 0 ≤ col → col < z.nfvar → ∀ ip, 0 ≤ ip → ip < nvar → ip ≠ col →
      (perturbed_call_mem F z a nvar jac_delta SMALL s col).read a.tmp1 ip
        = s.mem.read a.P ip) ∧
    (∀ col, 0 ≤ col → col < z.nfvar →
      (perturbed_call_mem F z a nvar jac_delta SMALL s col).read a.tmp1 col
        = P_delta_at jac_delta (s.mem.read a.P col)) ∧
    (∀ col, 0 ≤ col → col < z.nfvar → ∀ ip, z.nfvar ≤ ip → ip < nvar →
      (perturbed_call_mem F z a nvar jac_delta SMALL s col).read a.tmp1 ip
        = s.mem.read a.P ip) ∧
    (∀ ip, 0 ≤ ip → ip < nvar →
      (calc_jacobian F z a nvar jac_delta SMALL s).mem.read a.tmp1 ip = s.mem.read a.P ip) ∧
    (calc_jacobian F z a nvar jac_delta SMALL s).mem.read a.P = s.mem.read a.P := by
  obtain ⟨⟨t12, t13, t1r, t23, t2r, t3r⟩, ⟨p1, p2, p3, pr⟩, -⟩ := jacobianViews_distinct h
  have hP : (column_loop_entry F z a nvar s).mem.read a.P = s.mem.read a.P := by
    rw [column_loop_entry_mem F z a nvar h s, Mem.fill_other _ _ p1, Mem.fill_other _ _ pr,
      Mem.fill_other _ _ p3]
  have hT : (column_loop_entry F z a nvar s).mem.read a.tmp1
      = fun iq => if 0 ≤ iq ∧ iq < nvar then s.mem.read a.P iq else s.mem.read a.tmp1 iq := by
    rw [column_loop_entry_mem F z a nvar h s, Mem.fill_same]
  have hloop : ∀ (k : Nat) (ip : Int), 0 ≤ ip → ip < nvar →
      (forLoop k (jacobian_column F z a jac_delta SMALL)
        (column_loop_entry F z a nvar s)).mem.read a.tmp1 ip = s.mem.read a.P ip := by
    intro k ip h0 h1
    rw [(column_loop_inv F z a jac_delta SMALL h _ k).2.1, hP, hT]
    simp only [h0, h1, and_self, if_true, ite_self]
  have hloopP : ∀ k : Nat,
      (forLoop k (jacobian_column F z a jac_delta SMALL)
        (column_loop_entry F z a nvar s)).mem.read a.P = s.mem.read a.P := by
    intro k
    rw [(column_loop_inv F z a jac_delta SMALL h _ k).1 a.P p1 p2 p3, hP]
  have hother : ∀ col ip, 0 ≤ ip → ip < nvar → ip ≠ col →
      (perturbed_call_mem F z a nvar jac_delta SMALL s col).read a.tmp1 ip
        = s.mem.read a.P ip := by
    intro col ip h0 h1 hne
    rw [perturbed_call_mem, perturb_column_eq, Mem.fill_same, Function.update_noteq hne]
    exact hloop _ ip h0 h1
  refine ⟨fun col _ _ ip h0 h1 hne => hother col ip h0 h1 hne, ?_,
    fun col _ hc1 ip h0 h1 => hother col ip (by omega) h1 (by omega), ?_, ?_⟩
  · intro col _ _
    rw [perturbed_call_mem, perturb_column_eq, Mem.fill_same, Function.update_same, hloopP]
  · intro ip h0 h1
    rw [calc_jacobian_loop]
    exact hloop _ ip h0 h1
  · rw [calc_jacobian_loop]
    exact hloopP _

theorem calc_jacobian_working_copy_witness :
    (perturbed_call_mem exPhysics exZoneEMHD exJViews 3 1 1 exStateJunk 1).read 6 0 = 0 ∧
      (perturbed_call_mem exPhysics exZoneEMHD exJViews 3 1 1 exStateJunk 1).read 6 1 = 2 ∧
      (perturbed_call_mem exPhysics exZoneEMHD exJViews 3 1 1 exStateJunk 1).read 6 2 = 2 ∧
      (calc_jacobian exPhysics exZoneEMHD exJViews 3 1 1 exStateJunk).mem.read 6 1 = 1 := by
  have h := calc_jacobian_working_copy exPhysics exZoneEMHD exJViews 3 1 1 exStateJunk
    (by decide)
  have e : ∀ ip : Int, exStateJunk.mem.read exJViews.P ip = (ip : ℚ) := by
    intro ip; simp [exStateJunk, exJViews]
  refine ⟨?_, ?_, ?_, ?_⟩
  · rw [show (6 : Local) = exJViews.tmp1 from rfl,
      h.1 1 (by decide) (by decide) 0 (by decide) (by decide) (by decide), e]
    norm_num
  · rw [show (6 : Local) = exJViews.tmp1 from rfl, h.2.1 1 (by decide) (by decide), e]
    norm_num [P_delta_at]
  · rw [show (6 : Local) = exJViews.tmp1 from rfl,
      h.2.2.1 1 (by decide) (by decide) 2 (by decide) (by decide), e]
    norm_num
  · rw [show (6 : Local) = exJViews.tmp1 from rfl, h.2.2.2.1 1 (by decide) (by decide), e]
    norm_num

/-- Claim C12: when the written views of `calc_jacobian` alias nothing (in particular for
pairwise distinct views), its residual output is what the baseline call
`calc_residual(G, P, ..., tmp3, ..., residual)` left there: the `nfvar` perturbed calls,
which write `tmp2` and reuse `tmp3`, do not alter it; and on `[0, nfvar)` it equals the
residual of any direct call of `calc_residual` whose trial state is `P` and whose context
is the same. -/
theorem calc_jacobian_residual_output (F : Physics GRCoordinates EMHD_parameters)
    (z : ZoneArgs GRCoordinates EMHD_parameters) (a : JacobianViews) (nvar : Int)
    (jac_delta SMALL : ℚ) (s : State) (h : a.NoAlias) :
    (calc_jacobian F z a nvar jac_delta SMALL s).mem.read a.residual
        = (calc_residual F z a.baseline s.mem).read a.residual ∧
    ∀ (r : ResidualViews) (m : Mem), r.NoAlias →
      m.read r.P_test = s.mem.read a.P → m.read r.Pi = s.mem.read a.Pi →
      m.read r.Ui = s.mem.read a.Ui → m.read r.Ps = s.mem.read a.Ps →
      m.read r.dudt_explicit = s.mem.read a.dudt_explicit →
      m.read r.dUi = s.mem.read a.dUi →
      ∀ ip, 0 ≤ ip → ip < z.nfvar →
        (calc_jacobian F z a nvar jac_delta SMALL s).mem.read a.residual ip
          = (calc_residual F z r m).read r.residual ip := by
  constructor
  · rw [calc_jacobian_residual F z a nvar jac_delta SMALL h s,
      calc_residual_eq F z _ _ (noAlias_baseline h)]
    exact (Mem.fill_same _ a.baseline.residual _).symm
  · intro r m hr e1 e2 e3 e4 e5 e6 ip h0 h1
    rw [calc_jacobian_residual F z a nvar jac_delta SMALL h s, calc_residual_eq F z r m hr,
      Mem.fill_same, e1, e2, e3, e4, e5, e6]
    exact residual_value_old F z _ _ _ _ _ _ _ _ ip h0 h1

theorem calc_jacobian_residual_output_witness :
    [exJViews.P, exJViews.Pi, exJViews.Ui, exJViews.Ps, exJViews.dudt_explicit, exJViews.dUi,
        exJViews.tmp1, exJViews.tmp2, exJViews.tmp3, exJViews.residual].Nodup ∧
      (calc_jacobian exPhysics exZoneEMHD exJViews 3 1 1 exStateJunk).mem.read 9 0
        = (calc_residual exPhysics exZoneEMHD exViews exMem).read 7 0 ∧
      (calc_jacobian exPhysics exZoneEMHD exJViews 3 1 1 exStateJunk).mem.read 9 0
        = -15 / 2 := by
  have h := (calc_jacobian_residual_output exPhysics exZoneEMHD exJViews 3 1 1 exStateJunk
    (by decide)).2 exViews exMem (by decide)
    (by funext ip; simp [exStateJunk, exMem, exViews, exJViews])
    (by funext ip; simp [exStateJunk, exMem, exViews, exJViews])
    (by funext ip; simp [exStateJunk, exMem, exViews, exJViews])
    (by funext ip; simp [exStateJunk, exMem, exViews, exJViews])
    (by funext ip; simp [exStateJunk, exMem, exViews, exJViews])
    (by funext ip; simp [exStateJunk, exMem, exViews, exJViews])
    0 (by decide) (by decide)
  have h' : (calc_residual exPhysics exZoneEMHD exViews exMem).read 7 0 = -15 / 2 := by
    rw [calc_residual_eq exPhysics exZoneEMHD exViews exMem (by decide)]
    norm_num [Mem.fill, residual_value, fluxbal, U_test, exPhysics, exMem, exViews,
      exZoneEMHD, Function.update]
  refine ⟨by decide, h, ?_⟩
  rw [show (9 : Local) = exJViews.residual from rfl, h]
  exact h'

end Implicit

/-! ### Field seeding -/

namespace SeedB

open Implicit (forLoop)

theorem b_field_flag_of_eq_none (b_field_type : String) :
    b_field_flag_of b_field_type = none
      ↔ b_field_type ∉ ["sane", "ryan", "r3s3", "gaussian"] := by
  unfold b_field_flag_of
  simp only [List.mem_cons, List.mem_singleton, List.not_mem_nil, or_false, not_or]
  split_ifs <;> simp_all

/-- Claim C8: `SeedBField` throws `std::invalid_argument` exactly when `b_field_type` is none
of "none", "sane", "ryan", "r3s3", "gaussian"; when it throws, `P` holds what it held at
the call, and for "none" it returns with `P` unchanged. -/
theorem SeedBField_throws_iff (L : Libm) (pmb : MeshBlock) (G : Grid) (P : GridVars)
    (rin min_rho_q : ℚ) (b_field_type : String) :
    ((SeedBField L pmb G P rin min_rho_q b_field_type).thrown
        = some (Exception.invalid_argument
            ("Magnetic field seed type not supported: " ++ b_field_type))
      ↔ b_field_type ∉ ["none", "sane", "ryan", "r3s3", "gaussian"]) ∧
    ((SeedBField L pmb G P rin min_rho_q b_field_type).thrown = none
      ↔ b_field_type ∈ ["none", "sane", "ryan", "r3s3", "gaussian"]) ∧
    ((SeedBField L pmb G P rin min_rho_q b_field_type).thrown ≠ none →
      (SeedBField L pmb G P rin min_rho_q b_field_type).P = P) ∧
    (b_field_type = "none" →
      SeedBField L pmb G P rin min_rho_q b_field_type = ⟨none, P⟩) := by
  have hmem : b_field_type ∈ ["none", "sane", "ryan", "r3s3", "gaussian"]
      ↔ (b_field_type = "none" ∨ b_field_type ∈ ["sane", "ryan", "r3s3", "gaussian"]) := by
    simp
  by_cases h0 : b_field_type = "none"
  · have hm : b_field_type ∈ ["none", "sane", "ryan", "r3s3", "gaussian"] :=
      hmem.mpr (Or.inl h0)
    simp [SeedBField, h0] at hm ⊢
  · cases hf : b_field_flag_of b_field_type with
    | none =>
      have hn := (b_field_flag_of_eq_none b_field_type).mp hf
      have hm : b_field_type ∉ ["none", "sane", "ryan", "r3s3", "gaussian"] := by
        rw [hmem]; tauto
      simp only [SeedBField, h0, if_false, hf, hm, not_false_eq_true, iff_true, iff_false,
        ne_eq, not_true_eq_false, imp_self, false_implies, and_true, true_and]
      simp
    | some flag =>
      have hn : ¬ b_field_type ∉ ["sane", "ryan", "r3s3", "gaussian"] := by
        rw [← b_field_flag_of_eq_none, hf]; simp
      have hm : b_field_type ∈ ["none", "sane", "ryan", "r3s3", "gaussian"] := by
        rw [hmem]; tauto
      simp only [SeedBField, h0, if_false, hf, hm, not_true_eq_false, iff_true, iff_false,
        ne_eq, false_implies, and_true, true_and, not_false_eq_true]
      simp

theorem SeedBField_throws_iff_witness :
    (SeedBField exLibm exBlock exGrid exP 1 (1 / 5) "mad").thrown
        = some (Exception.invalid_argument "Magnetic field seed type not supported: mad") ∧
      (SeedBField exLibm exBlock exGrid exP 1 (1 / 5) "mad").P = exP ∧
      SeedBField exLibm exBlock exGrid exP 1 (1 / 5) "none" = ⟨none, exP⟩ := by
  have h := SeedBField_throws_iff exLibm exBlock exGrid exP 1 (1 / 5) "mad"
  have h1 := h.1.mpr (by decide)
  exact ⟨h1, h.2.2.1 (by rw [h1]; simp),
    (SeedBField_throws_iff exLibm exBlock exGrid exP 1 (1 / 5) "none").2.2.2 rfl⟩

theorem forLoop_row (j il : Int) (f : Int → ℚ) (n : Nat) (A : ParArray2) :
    forLoop n (fun m A => A.set j (il + m) (f (il + m))) A
      = ⟨fun j' i' =>
          if j' = j ∧ il ≤ i' ∧ i' < il + (n : Int) then f i' else A.read j' i'⟩ := by
  induction n with
  | zero =>
    apply ParArray2.ext
    funext j' i'
    have : ¬ (j' = j ∧ il ≤ i' ∧ i' < il + ((0 : Nat) : Int)) := by omega
    simp only [forLoop, this, if_false]
  | succ k ih =>
    rw [forLoop, ih]
    apply ParArray2.ext
    funext j' i'
    simp only [ParArray2.set]
    by_cases h : j' = j ∧ i' = il + (k : Int)
    · obtain ⟨h1, h2⟩ := h
      simp only [h1, h2, and_self, if_true]
      rw [if_pos (by refine ⟨trivial, ?_, ?_⟩ <;> push_cast <;> omega)]
    · have : (j' = j ∧ il ≤ i' ∧ i' < il + ((k + 1 : Nat) : Int))
          ↔ (j' = j ∧ il ≤ i' ∧ i' < il + (k : Int)) := by
        push_cast; omega
      simp only [h, if_false, this]

theorem par_for2_set (jl ju il iu : Int) (f : Int → Int → ℚ) (A : ParArray2) :
    par_for2 jl ju il iu (fun j i A => A.set j i (f j i)) A
      = ⟨fun j i =>
          if (jl ≤ j ∧ j ≤ ju) ∧ (il ≤ i ∧ i ≤ iu) then f j i else A.read j i⟩ := by
  unfold par_for2 forRange
  have hrow : ∀ (j : Int) (A : ParArray2),
      forLoop (iu + 1 - il).toNat (fun m A => A.set j (il + m) (f j (il + m))) A
        = ⟨fun j' i' => if j' = j ∧ il ≤ i' ∧ i' ≤ iu then f j i' else A.read j' i'⟩ := by
    intro j A
    rw [forLoop_row j il (f j)]
    apply ParArray2.ext
    funext j' i'
    have : (j' = j ∧ il ≤ i' ∧ i' < il + (((iu + 1 - il).toNat : Nat) : Int))
        ↔ (j' = j ∧ il ≤ i' ∧ i' ≤ iu) := by omega
    simp only [this]
  simp only [hrow]
  have houter : ∀ n : Nat,
      forLoop n (fun m A => (⟨fun j' i' =>
          if j' = jl + m ∧ il ≤ i' ∧ i' ≤ iu then f (jl + m) i' else A.read j' i'⟩ : ParArray2)) A
        = ⟨fun j i =>
            if (jl ≤ j ∧ j < jl + (n : Int)) ∧ (il ≤ i ∧ i ≤ iu) then f j i
            else A.read j i⟩ := by
    intro n
    induction n with
    | zero =>
      apply ParArray2.ext
      funext j i
      have : ¬ ((jl ≤ j ∧ j < jl + ((0 : Nat) : Int)) ∧ (il ≤ i ∧ i ≤ iu)) := by omega
      simp only [forLoop, this, if_false]
    | succ k ih =>
      rw [forLoop, ih]
      apply ParArray2.ext
      funext j i
      simp only []
      by_cases h : j = jl + (k : Int) ∧ il ≤ i ∧ i ≤ iu
      · obtain ⟨h1, h2⟩ := h
        rw [if_pos ⟨h1, h2⟩, if_pos (by refine ⟨⟨?_, ?_⟩, h2⟩ <;> push_cast <;> omega), h1]
      · have : ((jl ≤ j ∧ j < jl + ((k + 1 : Nat) : Int)) ∧ (il ≤ i ∧ i ≤ iu))
            ↔ ((jl ≤ j ∧ j < jl + (k : Int)) ∧ (il ≤ i ∧ i ≤ iu)) := by
          push_cast; omega
        simp only [h, if_false, this]
  rw [houter]
  apply ParArray2.ext
  funext j i
  have : ((jl ≤ j ∧ j < jl + (((ju + 1 - jl).toNat : Nat) : Int)) ∧ (il ≤ i ∧ i ≤ iu))
      ↔ ((jl ≤ j ∧ j ≤ ju) ∧ (il ≤ i ∧ i ≤ iu)) := by omega
  simp only [this]

/-- The vector potential computed by the kernel `B_field_A`. -/
theorem B_field_A_read (L : Libm) (pmb : MeshBlock) (G : Grid) (P : GridVars)
    (rin min_rho_q : ℚ) (b_field_flag : BSeedType) (j i : Int) :
    (B_field_A L pmb G P rin min_rho_q b_field_flag).read j i
      = if (1 ≤ j ∧ j ≤ pmb.ncells2 - 1) ∧ (1 ≤ i ∧ i ≤ pmb.ncells1 - 1) then
          max (q_of L G P rin min_rho_q b_field_flag j i) 0
        else 0 := by
  unfold B_field_A
  simp only []
  rw [par_for2_set]

/-- The field `SeedBField` leaves in `P` is the one the kernel `B_field_B` computes from the
array `A` of `SeedBField_A`. -/
theorem SeedBField_of_A (L : Libm) (pmb : MeshBlock) (G : Grid) (P : GridVars)
    (rin min_rho_q : ℚ) (b_field_type : String) (A : ParArray2)
    (h : SeedBField_A L pmb G P rin min_rho_q b_field_type = some A) :
    SeedBField L pmb G P rin min_rho_q b_field_type = ⟨none, B_field_B pmb G A P⟩ := by
  unfold SeedBField_A at h
  unfold SeedBField
  by_cases h0 : b_field_type = "none"
  · simp [h0] at h
  · simp only [h0, if_false] at h ⊢
    cases hf : b_field_flag_of b_field_type with
    | none => simp [hf] at h
    | some flag =>
      simp only [hf, Option.some.injEq] at h
      simp only [h]

/-- The flag, hence the branch of the `switch`, that `SeedBField` takes for each of the four
field types. -/
theorem SeedBField_A_types (L : Libm) (pmb : MeshBlock) (G : Grid) (P : GridVars)
    (rin min_rho_q : ℚ) :
    SeedBField_A L pmb G P rin min_rho_q "sane"
        = some (B_field_A L pmb G P rin min_rho_q BSeedType.sane) ∧
      SeedBField_A L pmb G P rin min_rho_q "ryan"
        = some (B_field_A L pmb G P rin min_rho_q BSeedType.ryan) ∧
      SeedBField_A L pmb G P rin min_rho_q "r3s3"
        = some (B_field_A L pmb G P rin min_rho_q BSeedType.r3s3) ∧
      SeedBField_A L pmb G P rin min_rho_q "gaussian"
        = some (B_field_A L pmb G P rin min_rho_q BSeedType.gaussian) := by
  refine ⟨?_, ?_, ?_, ?_⟩ <;> simp [SeedBField_A, b_field_flag_of]

/-- Claim C9, as stated, fails: `SeedBField` called with the field type "r3s3", at radius
`r = 2 rin`, with density `1/10` everywhere and `min_rho_q = 1/5`: the corner density
`rho_av = 1/10` is below `min_rho_q`, but `A(1, 1) = max(8 * (1/10) - 1/5, 0) = 3/5`. -/
theorem vector_potential_below_min_rho_q :
    rho_av exP 1 1 < 1 / 5 ∧
      ∃ A, SeedBField_A exLibm exBlock exGrid exP 1 (1 / 5) "r3s3" = some A ∧
        SeedBField exLibm exBlock exGrid exP 1 (1 / 5) "r3s3"
          = ⟨none, B_field_B exBlock exGrid A exP⟩ ∧
        A.read 1 1 = 3 / 5 := by
  constructor
  · norm_num [rho_av, exP]
  · have hA := (SeedBField_A_types exLibm exBlock exGrid exP 1 (1 / 5)).2.2.1
    refine ⟨_, hA, SeedBField_of_A _ _ _ _ _ _ _ _ hA, ?_⟩
    rw [B_field_A_read]
    norm_num [exBlock, q_of, rho_av, exP, exGrid]

/-- Claim C9, amended: at every corner `1 <= j < ncells2`, `1 <= i < ncells1` the array `A`
from which `SeedBField` computes the field is nonnegative, for each of the four field types.
For "sane", `A(j, i) = max(rho_av - min_rho_q, 0)`, which is zero whenever `rho_av` is below
`min_rho_q`.  For "ryan" the threshold `min_rho_q` applies to the weighted density:
`A(j, i) = max(sin(th)^3 (r/rin)^3 exp(-r/400) rho_av - min_rho_q, 0)`.  For "gaussian",
`A(j, i)` depends neither on the density nor on `min_rho_q`.  For "r3s3" only `A(j, i) >= 0`
is stated. -/
theorem vector_potential_threshold (L : Libm) (pmb : MeshBlock) (G : Grid) (P : GridVars)
    (rin min_rho_q : ℚ) (j i : Int) (hj0 : 1 ≤ j) (hj1 : j < pmb.ncells2) (hi0 : 1 ≤ i)
    (hi1 : i < pmb.ncells1) :
    (∀ b_field_type ∈ ["sane", "ryan", "r3s3", "gaussian"],
      ∃ A, SeedBField_A L pmb G P rin min_rho_q b_field_type = some A ∧
        SeedBField L pmb G P rin min_rho_q b_field_type = ⟨none, B_field_B pmb G A P⟩ ∧
        0 ≤ A.read j i) ∧
    (∃ A, SeedBField_A L pmb G P rin min_rho_q "sane" = some A ∧
      A.read j i = max (rho_av P j i - min_rho_q) 0 ∧
      (rho_av P j i < min_rho_q → A.read j i = 0)) ∧
    (∃ A, SeedBField_A L pmb G P rin min_rho_q "ryan" = some A ∧
      A.read j i
        = max ((L.sin (G.coord_embed 0 j i Loci.center 2)) ^ 3
            * (G.coord_embed 0 j i Loci.center 1 / rin) ^ 3
            * L.exp (-(G.coord_embed 0 j i Loci.center 1) / 400) * rho_av P j i
            - min_rho_q) 0) ∧
    (∃ A, SeedBField_A L pmb G P rin min_rho_q "gaussian" = some A ∧
      ∀ (P' : GridVars) (min_rho_q' : ℚ),
        ∃ A', SeedBField_A L pmb G P' rin min_rho_q' "gaussian" = some A' ∧
          A'.read j i = A.read j i) := by
  have hin : (1 ≤ j ∧ j ≤ pmb.ncells2 - 1) ∧ (1 ≤ i ∧ i ≤ pmb.ncells1 - 1) := by omega
  obtain ⟨hs, hr, h3, hg⟩ := SeedBField_A_types L pmb G P rin min_rho_q
  have hpos : ∀ flag, 0 ≤ (B_field_A L pmb G P rin min_rho_q flag).read j i := by
    intro flag
    rw [B_field_A_read, if_pos hin]
    exact le_max_right _ _
  refine ⟨?_, ?_, ?_, ?_⟩
  · intro t ht
    simp only [List.mem_cons, List.mem_singleton, List.not_mem_nil, or_false] at ht
    rcases ht with rfl | rfl | rfl | rfl
    · exact ⟨_, hs, SeedBField_of_A _ _ _ _ _ _ _ _ hs, hpos _⟩
    · exact ⟨_, hr, SeedBField_of_A _ _ _ _ _ _ _ _ hr, hpos _⟩
    · exact ⟨_, h3, SeedBField_of_A _ _ _ _ _ _ _ _ h3, hpos _⟩
    · exact ⟨_, hg, SeedBField_of_A _ _ _ _ _ _ _ _ hg, hpos _⟩
  · refine ⟨_, hs, ?_, ?_⟩
    · rw [B_field_A_read, if_pos hin]; rfl
    · intro hlt
      rw [B_field_A_read, if_pos hin]
      exact max_eq_right (by simp only [q_of]; linarith)
  · refine ⟨_, hr, ?_⟩
    rw [B_field_A_read, if_pos hin]; rfl
  · refine ⟨_, hg, ?_⟩
    intro P' min_rho_q'
    refine ⟨_, (SeedBField_A_types L pmb G P' rin min_rho_q').2.2.2, ?_⟩
    rw [B_field_A_read, B_field_A_read, if_pos hin, if_pos hin]
    rfl

theorem vector_potential_threshold_witness :
    (∃ A, SeedBField_A exLibm exBlock exGrid exP 1 (1 / 5) "sane" = some A ∧
        A.read 3 2 = 0) ∧
      ∃ A, SeedBField_A exLibm exBlock exGrid exP 1 (1 / 20) "sane" = some A ∧
        A.read 3 2 = 1 / 20 := by
  obtain ⟨A, hA, hval, hzero⟩ := (vector_potential_threshold exLibm exBlock exGrid exP 1
    (1 / 5) 3 2 (by decide) (by decide) (by decide) (by decide)).2.1
  obtain ⟨A', hA', hval', -⟩ := (vector_potential_threshold exLibm exBlock exGrid exP 1
    (1 / 20) 3 2 (by decide) (by decide) (by decide) (by decide)).2.1
  refine ⟨⟨A, hA, hzero (by norm_num [rho_av, exP])⟩, ⟨A', hA', ?_⟩⟩
  rw [hval']
  norm_num [rho_av, exP]

/-! ### The kernel `B_field_B` -/

theorem zoneUpdate_congr (upd : prims → Int → Int → ℚ → ℚ) (R R' : Int → Int → Int → Prop)
    (f : GridVars → GridVars) (hR : ∀ k j i, R k j i ↔ R' k j i)
    (h : ZoneUpdate upd R f) : ZoneUpdate upd R' f := by
  intro P p k j i
  rw [← hR k j i]
  exact h P p k j i

theorem zoneUpdate_forLoop (upd : prims → Int → Int → ℚ → ℚ)
    (hidem : ∀ p j i x, upd p j i (upd p j i x) = upd p j i x)
    (R : Int → Int → Int → Int → Prop) (body : Int → GridVars → GridVars)
    (hb : ∀ m, ZoneUpdate upd (R m) (body m)) (n : Nat) :
    ZoneUpdate upd (fun k j i => ∃ m : Nat, m < n ∧ R (m : Int) k j i) (forLoop n body) := by
  induction n with
  | zero =>
    intro P p k j i
    refine ⟨?_, fun _ => rfl⟩
    rintro ⟨m, hm, -⟩
    exact absurd hm (Nat.not_lt_zero m)
  | succ n ih =>
    intro P p k j i
    simp only [forLoop]
    obtain ⟨hin, hout⟩ := hb (n : Int) (forLoop n body P) p k j i
    obtain ⟨ihin, ihout⟩ := ih P p k j i
    by_cases hn : R (n : Int) k j i
    · refine ⟨fun _ => ?_, fun hno => absurd ⟨n, Nat.lt_succ_self n, hn⟩ hno⟩
      rw [hin hn]
      by_cases hprev : ∃ m : Nat, m < n ∧ R (m : Int) k j i
      · rw [ihin hprev, hidem]
      · rw [ihout hprev]
    · rw [hout hn]
      constructor
      · rintro ⟨m, hm, hRm⟩
        have hmn : m < n := by
          rcases Nat.lt_succ_iff_lt_or_eq.mp hm with h1 | h1
          · exact h1
          · subst h1; exact absurd hRm hn
        exact ihin ⟨m, hmn, hRm⟩
      · intro hno
        exact ihout (fun ⟨m, hm, hRm⟩ => hno ⟨m, Nat.lt_succ_of_lt hm, hRm⟩)

theorem zoneUpdate_forRange (upd : prims → Int → Int → ℚ → ℚ)
    (hidem : ∀ p j i x, upd p j i (upd p j i x) = upd p j i x)
    (R : Int → Int → Int → Int → Prop) (body : Int → GridVars → GridVars)
    (hb : ∀ m, ZoneUpdate upd (R m) (body m)) (lo hi : Int) :
    ZoneUpdate upd (fun k j i => ∃ m : Int, lo ≤ m ∧ m ≤ hi ∧ R m k j i)
      (forRange lo hi body) := by
  unfold forRange
  refine zoneUpdate_congr upd _ _ _ ?_
    (zoneUpdate_forLoop upd hidem (fun n => R (lo + n)) (fun n => body (lo + n))
      (fun n => hb (lo + n)) (hi + 1 - lo).toNat)
  intro k j i
  constructor
  · rintro ⟨n, hn, hR⟩
    exact ⟨lo + (n : Int), by omega, by omega, hR⟩
  · rintro ⟨m, h0, h1, hR⟩
    refine ⟨(m - lo).toNat, by omega, ?_⟩
    have : lo + (((m - lo).toNat : Nat) : Int) = m := by omega
    rw [this]
    exact hR

theorem B_field_B_zone_idem (pmb : MeshBlock) (G : Grid) (A : ParArray2) (p : prims)
    (j i : Int) (x : ℚ) :
    B_field_B_zone pmb G A p j i (B_field_B_zone pmb G A p j i x)
      = B_field_B_zone pmb G A p j i x := by
  cases p <;> rfl

/-- The kernel `B_field_B` rewrites `B1`, `B2`, `B3` of the zones
`0 <= k <= ncells3 - 2`, `0 <= j <= ncells2 - 2`, `0 <= i <= ncells1 - 2` and nothing
else. -/
theorem B_field_B_update (pmb : MeshBlock) (G : Grid) (A : ParArray2) :
    ZoneUpdate (B_field_B_zone pmb G A)
      (fun k j i => (0 ≤ k ∧ k ≤ pmb.ncells3 - 2) ∧ (0 ≤ j ∧ j ≤ pmb.ncells2 - 2) ∧
        (0 ≤ i ∧ i ≤ pmb.ncells1 - 2))
      (B_field_B pmb G A) := by
  have hidem := B_field_B_zone_idem pmb G A
  have hzone : ∀ k j i : Int,
      ZoneUpdate (B_field_B_zone pmb G A) (fun k' j' i' => k' = k ∧ j' = j ∧ i' = i)
        (fun P =>
          ((P.set prims.B1 k j i
            (-(A.read j i - A.read (j + 1) i + A.read j (i + 1) - A.read (j + 1) (i + 1)) /
              (2 * pmb.dx2v j * G.gdet Loci.center j i))).set prims.B2 k j i
            ((A.read j i + A.read (j + 1) i - A.read j (i + 1) - A.read (j + 1) (i + 1)) /
              (2 * pmb.dx1v i * G.gdet Loci.center j i))).set prims.B3 k j i 0) := by
    intro k j i P p k' j' i'
    constructor
    · rintro ⟨rfl, rfl, rfl⟩
      cases p <;> simp [GridVars.set, B_field_B_zone]
    · intro hne
      have h1 : ∀ q : prims, ¬ (p = q ∧ k' = k ∧ j' = j ∧ i' = i) := fun q hq => hne hq.2
      simp only [GridVars.set, h1, if_false]
  have hrow : ∀ k j : Int,
      ZoneUpdate (B_field_B_zone pmb G A)
        (fun k' j' i' => k' = k ∧ j' = j ∧ (0 ≤ i' ∧ i' ≤ pmb.ncells1 - 2))
        (forRange 0 (pmb.ncells1 - 2) (fun i P =>
          ((P.set prims.B1 k j i
            (-(A.read j i - A.read (j + 1) i + A.read j (i + 1) - A.read (j + 1) (i + 1)) /
              (2 * pmb.dx2v j * G.gdet Loci.center j i))).set prims.B2 k j i
            ((A.read j i + A.read (j + 1) i - A.read j (i + 1) - A.read (j + 1) (i + 1)) /
              (2 * pmb.dx1v i * G.gdet Loci.center j i))).set prims.B3 k j i 0)) := by
    intro k j
    refine zoneUpdate_congr _ _ _ _ ?_
      (zoneUpdate_forRange _ hidem (fun i k' j' i' => k' = k ∧ j' = j ∧ i' = i) _
        (fun i => hzone k j i) 0 (pmb.ncells1 - 2))
    intro k' j' i'
    constructor
    · rintro ⟨m, h0, h1, hk, hj, rfl⟩
      exact ⟨hk, hj, h0, h1⟩
    · rintro ⟨hk, hj, h0, h1⟩
      exact ⟨i', h0, h1, hk, hj, rfl⟩
  have hplane : ∀ k : Int,
      ZoneUpdate (B_field_B_zone pmb G A)
        (fun k' j' i' => k' = k ∧ (0 ≤ j' ∧ j' ≤ pmb.ncells2 - 2) ∧
          (0 ≤ i' ∧ i' ≤ pmb.ncells1 - 2))
        (forRange 0 (pmb.ncells2 - 2) (fun j =>
          forRange 0 (pmb.ncells1 - 2) (fun i P =>
            ((P.set prims.B1 k j i
              (-(A.read j i - A.read (j + 1) i + A.read j (i + 1) - A.read (j + 1) (i + 1)) /
                (2 * pmb.dx2v j * G.gdet Loci.center j i))).set prims.B2 k j i
              ((A.read j i + A.read (j + 1) i - A.read j (i + 1) - A.read (j + 1) (i + 1)) /
                (2 * pmb.dx1v i * G.gdet Loci.center j i))).set prims.B3 k j i 0))) := by
    intro k
    refine zoneUpdate_congr _ _ _ _ ?_
      (zoneUpdate_forRange _ hidem
        (fun j k' j' i' => k' = k ∧ j' = j ∧ (0 ≤ i' ∧ i' ≤ pmb.ncells1 - 2)) _
        (fun j => hrow k j) 0 (pmb.ncells2 - 2))
    intro k' j' i'
    constructor
    · rintro ⟨m, h0, h1, hk, rfl, hi⟩
      exact ⟨hk, ⟨h0, h1⟩, hi⟩
    · rintro ⟨hk, ⟨h0, h1⟩, hi⟩
      exact ⟨j', h0, h1, hk, rfl, hi⟩
  unfold B_field_B par_for3
  refine zoneUpdate_congr _ _ _ _ ?_
    (zoneUpdate_forRange _ hidem
      (fun k k' j' i' => k' = k ∧ (0 ≤ j' ∧ j' ≤ pmb.ncells2 - 2) ∧
        (0 ≤ i' ∧ i' ≤ pmb.ncells1 - 2)) _
      (fun k => hplane k) 0 (pmb.ncells3 - 2))
  intro k' j' i'
  constructor
  · rintro ⟨m, h0, h1, rfl, hj, hi⟩
    exact ⟨⟨h0, h1⟩, hj, hi⟩
  · rintro ⟨⟨h0, h1⟩, hj, hi⟩
    exact ⟨k', h0, h1, rfl, hj, hi⟩

/-- In exact arithmetic, the field computed by the kernel `B_field_B` from any vector
potential `A` has zero Flux-CT divergence at every corner whose four adjacent zones the
kernel has written, and `B3 = 0` in the zones it has written.  (In double precision the
four quotients are rounded one by one and their sum is zero only up to rounding.) -/
theorem B_field_B_divergence (pmb : MeshBlock) (G : Grid) (A : ParArray2) (P : GridVars)
    (dx1 dx2 : ℚ) (hx1 : ∀ i, pmb.dx1v i = dx1) (hx2 : ∀ j, pmb.dx2v j = dx2)
    (h1 : dx1 ≠ 0) (h2 : dx2 ≠ 0) (hg : ∀ j i, G.gdet Loci.center j i ≠ 0)
    (k : Int) (hk0 : 0 ≤ k) (hk1 : k ≤ pmb.ncells3 - 2) :
    (∀ j i, 1 ≤ j → j ≤ pmb.ncells2 - 2 → 1 ≤ i → i ≤ pmb.ncells1 - 2 →
      divB G (B_field_B pmb G A P) dx1 dx2 k j i = 0) ∧
    (∀ j i, 0 ≤ j → j ≤ pmb.ncells2 - 2 → 0 ≤ i → i ≤ pmb.ncells1 - 2 →
      (B_field_B pmb G A P).read prims.B3 k j i = 0) := by
  have hr : ∀ (p : prims) (j i : Int), 0 ≤ j → j ≤ pmb.ncells2 - 2 → 0 ≤ i →
      i ≤ pmb.ncells1 - 2 →
      (B_field_B pmb G A P).read p k j i = B_field_B_zone pmb G A p j i (P.read p k j i) :=
    fun p j i hj0 hj1 hi0 hi1 =>
      ((B_field_B_update pmb G A) P p k j i).1 ⟨⟨hk0, hk1⟩, ⟨hj0, hj1⟩, ⟨hi0, hi1⟩⟩
  constructor
  · intro j i hj0 hj1 hi0 hi1
    have g00 := hg j i
    have g10 := hg (j - 1) i
    have g01 := hg j (i - 1)
    have g11 := hg (j - 1) (i - 1)
    have e1 : j - 1 + 1 = j := by ring
    have e2 : i - 1 + 1 = i := by ring
    simp only [divB]
    rw [hr prims.B1 j i (by omega) hj1 (by omega) hi1,
      hr prims.B1 (j - 1) i (by omega) (by omega) (by omega) hi1,
      hr prims.B1 j (i - 1) (by omega) hj1 (by omega) (by omega),
      hr prims.B1 (j - 1) (i - 1) (by omega) (by omega) (by omega) (by omega),
      hr prims.B2 j i (by omega) hj1 (by omega) hi1,
      hr prims.B2 (j - 1) i (by omega) (by omega) (by omega) hi1,
      hr prims.B2 j (i - 1) (by omega) hj1 (by omega) (by omega),
      hr prims.B2 (j - 1) (i - 1) (by omega) (by omega) (by omega) (by omega)]
    simp only [B_field_B_zone, hx1, hx2, e1, e2]
    field_simp
    ring
  · intro j i hj0 hj1 hi0 hi1
    rw [hr prims.B3 j i hj0 hj1 hi0 hi1]
    rfl

end SeedB

/-! ### The Newton driver -/

namespace NewtonDriver

variable {TrialState Delta : Type}

theorem step_terminal (cfg : Config TrialState Delta) (m : Machine TrialState)
    (h : m.phase.terminal = true) : step cfg m = m := by
  unfold step
  cases hp : m.phase <;> simp_all [Phase.terminal]

theorem run_terminal (cfg : Config TrialState Delta) (n : Nat) (m : Machine TrialState)
    (h : m.phase.terminal = true) : run cfg n m = m := by
  induction n with
  | zero => rfl
  | succ k ih => rw [run, step_terminal cfg m h, ih]

theorem run_add (cfg : Config TrialState Delta) (a b : Nat) (m : Machine TrialState) :
    run cfg (a + b) m = run cfg b (run cfg a m) := by
  induction a generalizing m with
  | zero => simp [run]
  | succ k ih => rw [Nat.succ_add, run, run, ih]

/-- From `ITERATE` with `d` iterations left before the cap, `d + 1` transitions reach a
terminal state, within the cap. -/
theorem run_iterate (cfg : Config TrialState Delta) (d : Nat) (m : Machine TrialState)
    (hp : m.phase = Phase.ITERATE) (hd : m.iter + d = cfg.max_iters) :
    (run cfg (d + 1) m).phase.terminal = true ∧ (run cfg (d + 1) m).iter ≤ cfg.max_iters := by
  induction d generalizing m with
  | zero =>
    have hle : cfg.max_iters ≤ m.iter := by omega
    simp only [run, step, hp, hle, if_true, Phase.terminal, true_and]
    omega
  | succ k ih =>
    have hlt : ¬ cfg.max_iters ≤ m.iter := by omega
    have h1 : m.iter + 1 ≤ cfg.max_iters := by omega
    have h2 : m.iter + 1 + k = cfg.max_iters := by omega
    rw [run]
    have key : ((step cfg m).phase.terminal = true ∧ (step cfg m).iter ≤ cfg.max_iters) ∨
        ((step cfg m).phase = Phase.ITERATE ∧ (step cfg m).iter + k = cfg.max_iters) := by
      simp only [step, hp, hlt, if_false]
      cases hs : cfg.linear_solve m.P with
      | none => left; exact ⟨rfl, h1⟩
      | some delta =>
        simp only []
        cases ha : cfg.apply_step m.P delta with
        | none => left; exact ⟨rfl, h1⟩
        | some P' =>
          simp only []
          by_cases hc : cfg.converged P' = true
          · left; simp only [hc, if_true]; exact ⟨rfl, h1⟩
          · right; simp only [hc, Bool.false_eq_true, if_false]; exact ⟨trivial, h2⟩
    rcases key with ⟨ht, hi⟩ | ⟨hp', hd'⟩
    · rw [run_terminal cfg _ _ ht]
      exact ⟨ht, hi⟩
    · exact ih (step cfg m) hp' hd'

/-- Claim C10 (on the state machine modelled from the spec): for every configuration and
every initial guess, the per-zone solve ends in exactly one of the terminal states
`CONVERGED`, `MAX_ITERS_EXCEEDED`, `FAILED`, after at most `max_iters` iterations; it always
returns a state (`solve` is total), and more transitions than `max_iters + 2` change
nothing. -/
theorem solve_terminates (cfg : Config TrialState Delta) (guess : TrialState) :
    ((solve cfg guess).phase = Phase.CONVERGED ∨
        (solve cfg guess).phase = Phase.MAX_ITERS_EXCEEDED ∨
        (solve cfg guess).phase = Phase.FAILED) ∧
      (solve cfg guess).iter ≤ cfg.max_iters ∧
      ∀ n, cfg.max_iters + 2 ≤ n → run cfg n (init guess) = solve cfg guess := by
  have h1 : run cfg (cfg.max_iters + 2) (init guess)
      = run cfg (cfg.max_iters + 1) (step cfg (init guess)) := rfl
  have h := run_iterate cfg cfg.max_iters (step cfg (init guess)) rfl
    (by simp [step, init])
  have ht : (solve cfg guess).phase.terminal = true := by
    rw [solve, h1]; exact h.1
  refine ⟨?_, ?_, ?_⟩
  · cases hp : (solve cfg guess).phase <;> simp_all [Phase.terminal]
  · rw [solve, h1]; exact h.2
  · intro n hn
    obtain ⟨d, rfl⟩ := Nat.exists_eq_add_of_le hn
    rw [run_add, ← solve, run_terminal cfg d _ ht]

theorem solve_terminates_witness :
    run (exConfig 5) 9 (init 1) = solve (exConfig 5) 1 ∧
      (solve (exConfig 5) 1).phase = Phase.CONVERGED ∧
      (solve (exConfig 5) 1).iter = 2 ∧
      (solve (exConfig 5) 1).P = 17 / 12 ∧
      (solve (exConfig 1) 1).phase = Phase.MAX_ITERS_EXCEEDED ∧
      (solve (exConfig 5) 0).phase = Phase.FAILED := by
  refine ⟨(solve_terminates (exConfig 5) 1).2.2 9 (by decide), ?_, ?_, ?_, ?_, ?_⟩ <;>
    norm_num [solve, run, step, init, exConfig, abs_lt]

end NewtonDriver
